import Mathlib

/-!
# Mesh2Splat: the batch entry point `runCLIMode` of `src/main.cpp`

A shallow embedding of `main` / `runCLIMode` and of the standard-library
functions they call on their arguments (`std::stoi`, the conversion of `int`
to `unsigned int`, `std::filesystem::path`).  The renderer, the window
handler and the scene manager are not part of `main.cpp`; their calls are
recorded as events of a run and their outcomes are supplied by an
environment.
-/

namespace Mesh2Splat

/-! ## `std::stoi` and the resolution argument (main.cpp, lines 101 and 111-122) -/

/-- The two exceptions `std::stoi` can raise. -/
inductive StoiError where
  | invalidArgument
  | outOfRange
  deriving DecidableEq, Repr

/-- White space as `strtol` skips it in the C locale (`isspace`). -/
def isSpace (c : Char) : Bool :=
  c == ' ' || c == '\t' || c == '\n' || c == '\x0b' || c == '\x0c' || c == '\r'

/-- Value of a decimal digit character. -/
def digitVal (c : Char) : Nat := c.toNat - 48

/-- Value of a run of decimal digits, most significant first, continuing from `acc`. -/
def digitsValue (acc : Nat) : List Char → Nat
  | [] => acc
  | c :: cs => digitsValue (10 * acc + digitVal c) cs

/-- The optional sign `strtol` accepts: whether it is a minus, and the rest of the text. -/
def takeSign : List Char → Bool × List Char
  | '-' :: r => (true, r)
  | '+' :: r => (false, r)
  | t => (false, t)

/-- `std::stoi(str)` with the default base 10 and a 32-bit `int`: leading white
space is skipped, an optional sign is read, then the longest run of decimal
digits; whatever follows the digits is ignored.  Without a digit the call
throws `std::invalid_argument`; a value that does not fit `int` throws
`std::out_of_range`. -/
def stoi (str : String) : Except StoiError Int :=
  let t := str.data.dropWhile isSpace
  let ds := (takeSign t).2.takeWhile Char.isDigit
  if ds = [] then .error .invalidArgument
  else
    let v : Int := if (takeSign t).1 then -(digitsValue 0 ds : Int) else (digitsValue 0 ds : Int)
    if v < -2147483648 ∨ 2147483647 < v then .error .outOfRange else .ok v

/-- Conversion of an `int` to `unsigned int` (32 bits): reduction modulo `2^32`. -/
def toUnsigned (n : Int) : Nat := (n % 4294967296).toNat

/-- The value of `resolutionTarget` after lines 101-122 of `runCLIMode`: the
default 512, replaced when `argc >= 4` by `std::stoi(argv[3])` stored in the
unsigned variable, and reset to 512 when that value is below 64 or above 2048
or when `std::stoi` throws (`catch (...)`). -/
def resolutionTarget (argv : List String) : Nat :=
  if 4 ≤ argv.length then
    match stoi (argv.getD 3 "") with
    | .ok n =>
      let r := toUnsigned n
      if r < 64 ∨ 2048 < r then 512 else r
    | .error _ => 512
  else 512

/-! ## `std::filesystem::path` and the output path (main.cpp, lines 99-109)

Paths are modelled in the generic format of a POSIX host: the only directory
separator is `/` and there is no root name. -/

/-- `path::filename()`: the text after the last directory separator. -/
def filename (p : List Char) : List Char :=
  (p.reverse.takeWhile (fun c => c != '/')).reverse

/-- `path::stem()`: the file name without its last extension; a file name that is
`.` or `..`, or whose only period is the leading one, is its own stem. -/
def stem (p : List Char) : List Char :=
  let f := filename p
  if f = ['.'] ∨ f = ['.', '.'] then f
  else
    match f.reverse.dropWhile (fun c => c != '.') with
    | [] => f
    | _ :: rest => if rest = [] then f else rest.reverse

/-- `path::parent_path()`: the path itself when it has no relative part (empty or
only separators), the root directory when the single file name sits directly
under it, otherwise the text before the separators that precede the last
element; empty when there is no separator. -/
def parent_path (p : List Char) : List Char :=
  let upto := p.reverse.dropWhile (fun c => c != '/')
  let trimmed := upto.dropWhile (fun c => c == '/')
  if upto = [] then []
  else if trimmed = [] then (if filename p = [] then p else ['/'])
  else trimmed.reverse

/-- `operator/` of `std::filesystem::path`: an absolute right operand replaces the
left one; otherwise a separator is inserted when the left operand ends in a file
name, and the right operand is appended. -/
def pathAppend (p q : List Char) : List Char :=
  if q.head? = some '/' then q
  else if filename p ≠ [] then p ++ '/' :: q
  else p ++ q

/-- Line 108: `inputPath.parent_path() / (inputPath.stem().string() + ".ply")`. -/
def defaultOutput (inputFile : String) : String :=
  ⟨pathAppend (parent_path inputFile.data) (stem inputFile.data ++ ".ply".data)⟩

/-- The value of `outputFile` after lines 100-109: `argv[2]` when `argc >= 3`,
otherwise the path generated from the input path. -/
def outputFile (argv : List String) : String :=
  if 3 ≤ argv.length then argv.getD 2 "" else defaultOutput (argv.getD 1 "")

/-- Lines 147-148: `inputPath.parent_path().string()`. -/
def parentFolder (inputFile : String) : String := ⟨parent_path inputFile.data⟩

/-- The test of line 83: `argc >= 2` and `argv[1]` is one of the help flags. -/
def helpRequested (argv : List String) : Bool :=
  decide (2 ≤ argv.length) &&
    (argv.getD 1 "" == "--help" || argv.getD 1 "" == "-h" || argv.getD 1 "" == "/?" ||
      argv.getD 1 "" == "help")

/-! ## External calls, their outcomes and the renderer state -/

/-- The calls `runCLIMode` makes outside `main.cpp`, with the arguments that matter. -/
inductive Call where
  | fsExists (path : String)
  | newGlewGlfwHandler
  | init
  | newCamera
  | newRenderer
  | rendererInitialize
  | resetModelMatrices
  | loadModel (meshFilePath parentFolder : String)
  | gaussianBufferFromSize (size : Nat)
  | setFormatType (format : Nat)
  | setViewportResolutionForConversion (resolution : Nat)
  | setStdDevFromImGui
  | setRenderMode
  | enableRenderPass (name : String)
  | renderFrame
  | resetRendererViewportResolution
  | getTotalGaussianCount
  | exportPlySynchronous (path : String) (format : Nat)
  | glfwTerminate
  deriving DecidableEq, Repr

/-- How an external call ends: it returns (with a value, 0 for `void`), or it
throws an exception derived from `std::exception`, or it throws something else. -/
inductive Outcome where
  | returned (value : Int)
  | threwStd
  | threwOther
  deriving DecidableEq, Repr

/-- The part of the renderer the pipeline controller works on: the set of enabled
render passes, the current viewport resolution and the display resolution the
viewport is reset to. -/
structure RendererState where
  enabled : List String
  viewport : Nat
  display : Nat
  deriving DecidableEq, Repr

/-- The world around `runCLIMode`: whether a path names an existing file, how the
`k`-th external call of the run ends (for the existence check: whether it returns
or throws, the value it returns being `fileExists`), the renderer state at the
start, and what the calls whose effect on the renderer state is not described do
to it. -/
structure Env where
  fileExists : String → Bool
  outcome : Nat → Call → Outcome
  initial : RendererState
  effect : Call → RendererState → RendererState

/-- Modelled from the spec: the display-oriented passes, which section 4.5 names
as those re-enabled after the conversion (`gaussianPrepass`, `radixSort`,
`gaussianSplatting`). -/
def displayPasses : List String := ["gaussianPrepass", "radixSort", "gaussianSplatting"]

/-- Modelled from the spec: `Renderer::enableRenderPass`,
`Renderer::setViewportResolutionForConversion` and
`Renderer::resetRendererViewportResolution` are defined in the renderer sources,
which are not part of `main.cpp`.  Following the spec (sections 3 and 4.5):
enabling a pass adds its name to the pass-enablement set; the request that puts
the renderer at the conversion resolution sets the viewport resolution to the
requested conversion resolution and disables the display-oriented passes, the
other passes staying as they are; the reset restores the display resolution.
`getTotalGaussianCount` only reads.  What the other renderer calls do to this
state, `renderFrame` included, is left to the environment. -/
def step (env : Env) (c : Call) (st : RendererState) : RendererState :=
  match c with
  | .enableRenderPass name => { st with enabled := st.enabled.insert name }
  | .setViewportResolutionForConversion r =>
    { st with viewport := r, enabled := st.enabled.filter (fun p => !displayPasses.contains p) }
  | .resetRendererViewportResolution => { st with viewport := st.display }
  | .getTotalGaussianCount => st
  | .fsExists _ => st
  | .newGlewGlfwHandler => st
  | .init => st
  | .newCamera => st
  | .glfwTerminate => st
  | c => env.effect c st

/-- One executed external call: the call, the renderer state it found, and how it ended. -/
structure Event where
  call : Call
  before : RendererState
  outcome : Outcome
  deriving DecidableEq, Repr

/-- What running a straight-line sequence of calls gives: the events, the exception
that stopped it (if any), the renderer state reached and the value returned by
the last call that returned. -/
structure Exec where
  events : List Event
  raised : Option Outcome
  state : RendererState
  last : Int

/-- Run the calls in order, the first one being the `k`-th external call of the
run; the first call that throws ends the sequence. -/
def exec (env : Env) : Nat → RendererState → Int → List Call → Exec
  | _, st, v, [] => ⟨[], none, st, v⟩
  | k, st, _, c :: cs =>
    match env.outcome k c with
    | .returned w =>
      let r := exec env (k + 1) (step env c st) w cs
      ⟨⟨c, st, .returned w⟩ :: r.events, r.raised, r.state, r.last⟩
    | o => ⟨[⟨c, st, o⟩], some o, st, 0⟩

/-! ## `runCLIMode` and `main` -/

/-- How a function ends: it returns a status, or an exception leaves it uncaught;
`interactive` stands for the GUI session of `main` (lines 26-77). -/
inductive Result where
  | returned (code : Int)
  | uncaught
  | interactive
  deriving DecidableEq, Repr

/-- A run: the external calls made, in order, and how the function ended. -/
structure Run where
  trace : List Event
  result : Result

/-- Lines 133-134: the hidden window handler and its `init()`. -/
def contextCalls : List Call := [.newGlewGlfwHandler, .init]

/-- Lines 140-144: camera, renderer and `renderer.initialize()`. -/
def rendererCalls : List Call := [.newCamera, .newRenderer, .rendererInitialize]

/-- The body of the `try` block, lines 151-199, as the sequence of its calls.
`resolutionTarget * resolutionTarget` is a product of `unsigned int`. -/
def tryBlock (inputFile outputFile : String) (resolutionTarget : Nat) : List Call :=
  [ .resetModelMatrices,
    .loadModel inputFile (parentFolder inputFile),
    .gaussianBufferFromSize ((resolutionTarget * resolutionTarget) % 4294967296),
    .setFormatType 0,
    .setViewportResolutionForConversion resolutionTarget,
    .setStdDevFromImGui,
    .setRenderMode,
    .enableRenderPass "conversion",
    .enableRenderPass "gaussianPrepass",
    .enableRenderPass "radixSort",
    .enableRenderPass "gaussianSplatting",
    .enableRenderPass "conversion",
    .setViewportResolutionForConversion resolutionTarget,
    .renderFrame,
    .enableRenderPass "gaussianPrepass",
    .enableRenderPass "radixSort",
    .enableRenderPass "gaussianSplatting",
    .resetRendererViewportResolution,
    .getTotalGaussianCount,
    .exportPlySynchronous outputFile 0 ]

/-- The event of `glfwTerminate()` (lines 202 and 206), a C function. -/
def terminateEvent (st : RendererState) : Event := ⟨.glfwTerminate, st, .returned 0⟩

/-- Whether `std::filesystem::exists(inputFile)` of line 127 throws
(`std::filesystem::filesystem_error`, for instance on a name that is too long or
on a loop of symbolic links) instead of returning. -/
def existsThrows (env : Env) (argv : List String) : Bool :=
  match env.outcome 0 (.fsExists (argv.getD 1 "")) with
  | .returned _ => false
  | _ => true

/-- The event of the test of line 127, `std::filesystem::exists(inputFile)`, the
first external call of the run: when it returns, it returns whether the file
exists; otherwise it ends as the environment says. -/
def existsEvent (env : Env) (argv : List String) : Event :=
  ⟨.fsExists (argv.getD 1 ""), env.initial,
    match env.outcome 0 (.fsExists (argv.getD 1 "")) with
    | .returned _ => .returned (if env.fileExists (argv.getD 1 "") then 1 else 0)
    | o => o⟩

/-- Lines 133-134 executed: the first external calls after the existence check. -/
def contextRun (env : Env) : Exec := exec env 1 env.initial 0 contextCalls

/-- Lines 140-144 executed. -/
def rendererRun (env : Env) : Exec := exec env 3 (contextRun env).state 0 rendererCalls

/-- The `try` block executed. -/
def tryRun (env : Env) (argv : List String) : Exec :=
  exec env 6 (rendererRun env).state 0
    (tryBlock (argv.getD 1 "") (outputFile argv) (resolutionTarget argv))

/-- The function `runCLIMode` of main.cpp (lines 81-208).  Output to `std::cout` and
`std::cerr` is not modelled.  An exception thrown outside the `try` block (the
existence check of line 127 included), or one inside it that is not derived from
`std::exception`, leaves the function. -/
def runCLIMode (env : Env) (argv : List String) : Run :=
  if helpRequested argv then ⟨[], .returned 0⟩
  else if argv.length < 2 then ⟨[], .returned (-1)⟩
  else if existsThrows env argv then ⟨[existsEvent env argv], .uncaught⟩
  else if !env.fileExists (argv.getD 1 "") then ⟨[existsEvent env argv], .returned (-1)⟩
  else if (contextRun env).raised.isSome then
    ⟨existsEvent env argv :: (contextRun env).events, .uncaught⟩
  else if (contextRun env).last = -1 then
    ⟨existsEvent env argv :: (contextRun env).events, .returned (-1)⟩
  else if (rendererRun env).raised.isSome then
    ⟨existsEvent env argv :: ((contextRun env).events ++ (rendererRun env).events), .uncaught⟩
  else
    match (tryRun env argv).raised with
    | none =>
      ⟨existsEvent env argv :: ((contextRun env).events ++ (rendererRun env).events ++
          (tryRun env argv).events) ++ [terminateEvent (tryRun env argv).state], .returned 0⟩
    | some .threwStd =>
      ⟨existsEvent env argv :: ((contextRun env).events ++ (rendererRun env).events ++
          (tryRun env argv).events) ++ [terminateEvent (tryRun env argv).state], .returned (-1)⟩
    | some _ =>
      ⟨existsEvent env argv :: ((contextRun env).events ++ (rendererRun env).events ++
          (tryRun env argv).events), .uncaught⟩

/-- The function `main` of main.cpp: the batch entry point when an argument is
given, the interactive session otherwise. -/
def main (env : Env) (argv : List String) : Run :=
  if 2 ≤ argv.length then runCLIMode env argv else ⟨[], .interactive⟩

/-- The calls a run can make, in program order. -/
def script (argv : List String) : List Call :=
  .fsExists (argv.getD 1 "") ::
    (contextCalls ++ rendererCalls ++
      tryBlock (argv.getD 1 "") (outputFile argv) (resolutionTarget argv) ++ [.glfwTerminate])

/-- The ways a run of `runCLIMode` can go, one per exit of the function. -/
inductive Shape (env : Env) (argv : List String) : Run → Prop where
  | help : helpRequested argv = true → Shape env argv ⟨[], .returned 0⟩
  | usage : helpRequested argv = false → argv.length < 2 → Shape env argv ⟨[], .returned (-1)⟩
  | existsThrew : helpRequested argv = false → 2 ≤ argv.length →
      existsThrows env argv = true →
      Shape env argv ⟨[existsEvent env argv], .uncaught⟩
  | missing : helpRequested argv = false → 2 ≤ argv.length →
      env.fileExists (argv.getD 1 "") = false → existsThrows env argv = false →
      Shape env argv ⟨[existsEvent env argv], .returned (-1)⟩
  | contextThrew : helpRequested argv = false → 2 ≤ argv.length →
      env.fileExists (argv.getD 1 "") = true → (contextRun env).raised ≠ none →
      existsThrows env argv = false →
      Shape env argv ⟨existsEvent env argv :: (contextRun env).events, .uncaught⟩
  | initFailed : helpRequested argv = false → 2 ≤ argv.length →
      env.fileExists (argv.getD 1 "") = true → (contextRun env).raised = none →
      (contextRun env).last = -1 → existsThrows env argv = false →
      Shape env argv ⟨existsEvent env argv :: (contextRun env).events, .returned (-1)⟩
  | rendererThrew : helpRequested argv = false → 2 ≤ argv.length →
      env.fileExists (argv.getD 1 "") = true → (contextRun env).raised = none →
      (contextRun env).last ≠ -1 → (rendererRun env).raised ≠ none →
      existsThrows env argv = false →
      Shape env argv
        ⟨existsEvent env argv :: ((contextRun env).events ++ (rendererRun env).events),
          .uncaught⟩
  | completed : helpRequested argv = false → 2 ≤ argv.length →
      env.fileExists (argv.getD 1 "") = true → (contextRun env).raised = none →
      (contextRun env).last ≠ -1 → (rendererRun env).raised = none →
      (tryRun env argv).raised = none → existsThrows env argv = false →
      Shape env argv
        ⟨existsEvent env argv :: ((contextRun env).events ++ (rendererRun env).events ++
          (tryRun env argv).events) ++ [terminateEvent (tryRun env argv).state], .returned 0⟩
  | caught : helpRequested argv = false → 2 ≤ argv.length →
      env.fileExists (argv.getD 1 "") = true → (contextRun env).raised = none →
      (contextRun env).last ≠ -1 → (rendererRun env).raised = none →
      (tryRun env argv).raised = some .threwStd → existsThrows env argv = false →
      Shape env argv
        ⟨existsEvent env argv :: ((contextRun env).events ++ (rendererRun env).events ++
          (tryRun env argv).events) ++ [terminateEvent (tryRun env argv).state],
          .returned (-1)⟩
  | escaped : helpRequested argv = false → 2 ≤ argv.length →
      env.fileExists (argv.getD 1 "") = true → (contextRun env).raised = none →
      (contextRun env).last ≠ -1 → (rendererRun env).raised = none →
      (tryRun env argv).raised = some .threwOther → existsThrows env argv = false →
      Shape env argv
        ⟨existsEvent env argv :: ((contextRun env).events ++ (rendererRun env).events ++
          (tryRun env argv).events), .uncaught⟩

/-- The three steps of the conversion cycle: load, conversion frame, export. -/
def isCycleStep : Call → Bool
  | .loadModel _ _ => true
  | .renderFrame => true
  | .exportPlySynchronous _ _ => true
  | _ => false

/-! ## Concrete environments, used for examples -/

/-- An environment in which every file exists and every call returns 0; the
renderer starts with no pass enabled and a 1024 display. -/
def quietEnv : Env :=
  ⟨fun _ => true, fun _ _ => .returned 0, ⟨[], 1024, 1024⟩, fun _ st => st⟩

/-- An environment in which no file exists. -/
def emptyDiskEnv : Env :=
  ⟨fun _ => false, fun _ _ => .returned 0, ⟨[], 1024, 1024⟩, fun _ st => st⟩

/-- An environment in which no file exists and the existence check itself throws
(a `std::filesystem::filesystem_error`, which is derived from `std::exception`). -/
def brokenPathEnv : Env :=
  ⟨fun _ => false,
    fun _ c => match c with
      | .fsExists _ => .threwStd
      | _ => .returned 0,
    ⟨[], 1024, 1024⟩, fun _ st => st⟩

/-- An environment in which `loadModel` throws an exception that is not derived
from `std::exception`; everything else is as in `quietEnv`. -/
def foreignThrowEnv : Env :=
  ⟨fun _ => true,
    fun _ c => match c with
      | .loadModel _ _ => .threwOther
      | _ => .returned 0,
    ⟨[], 1024, 1024⟩, fun _ st => st⟩

/-- An environment in which `renderFrame` throws a `std::exception`; everything
else is as in `quietEnv`. -/
def frameThrowEnv : Env :=
  ⟨fun _ => true,
    fun _ c => match c with
      | .renderFrame => .threwStd
      | _ => .returned 0,
    ⟨[], 1024, 1024⟩, fun _ st => st⟩

/-- An environment in which every call returns and the renderer starts with the
display-oriented passes enabled and a 720 display. -/
def displayOnEnv : Env :=
  ⟨fun _ => true, fun _ _ => .returned 0,
    ⟨["gaussianPrepass", "radixSort", "gaussianSplatting"], 720, 720⟩, fun _ st => st⟩

/-- An environment in which every call returns and `renderFrame` leaves every
pass disabled behind it. -/
def frameDisablesEnv : Env :=
  ⟨fun _ => true, fun _ _ => .returned 0, ⟨[], 1024, 1024⟩,
    fun c st => match c with
      | .renderFrame => { st with enabled := [] }
      | _ => st⟩

/-- An environment in which `glewGlfwHandler.init()` returns -1. -/
def noContextEnv : Env :=
  ⟨fun _ => true,
    fun _ c => match c with
      | .init => .returned (-1)
      | _ => .returned 0,
    ⟨[], 1024, 1024⟩, fun _ st => st⟩

/-! ## Lemmas on decimal literals -/

theorem digitChar_isDigit (k : Nat) (hk : k < 10) : (Nat.digitChar k).isDigit = true := by
  interval_cases k <;> rfl

theorem digitVal_digitChar (k : Nat) (hk : k < 10) : digitVal (Nat.digitChar k) = k := by
  interval_cases k <;> rfl

theorem digitsValue_nil (acc : Nat) : digitsValue acc [] = acc := rfl

theorem digitsValue_cons (acc : Nat) (c : Char) (cs : List Char) :
    digitsValue acc (c :: cs) = digitsValue (10 * acc + digitVal c) cs := rfl

theorem digitsValue_append (acc : Nat) (l r : List Char) :
    digitsValue acc (l ++ r) = digitsValue (digitsValue acc l) r := by
  induction l generalizing acc with
  | nil => rfl
  | cons c cs ih => exact ih _

/-- What `Nat.toDigitsCore 10` puts in front of its accumulator is a non-empty
run of decimal digits whose value is the number printed. -/
theorem toDigitsCore_spec (fuel : Nat) : ∀ (n : Nat) (ds : List Char), n < fuel →
    ∃ l : List Char, Nat.toDigitsCore 10 fuel n ds = l ++ ds ∧ l ≠ [] ∧
      (∀ c ∈ l, c.isDigit = true) ∧ ∀ acc, digitsValue acc l = acc * 10 ^ l.length + n := by
  induction fuel with
  | zero => intro n ds h; omega
  | succ f ih =>
    intro n ds h
    have hd : n % 10 < 10 := Nat.mod_lt _ (by decide)
    by_cases h0 : n / 10 = 0
    · refine ⟨[Nat.digitChar (n % 10)], ?_, by simp, ?_, ?_⟩
      · simp [Nat.toDigitsCore, h0]
      · intro c hc
        simp only [List.mem_singleton] at hc
        subst hc
        exact digitChar_isDigit _ hd
      · intro acc
        rw [digitsValue_cons, digitsValue_nil, digitVal_digitChar _ hd]
        simp only [List.length_singleton, pow_one]
        omega
    · have hlt : n / 10 < f := by omega
      obtain ⟨l, hl, hne, hdig, hval⟩ := ih (n / 10) (Nat.digitChar (n % 10) :: ds) hlt
      refine ⟨l ++ [Nat.digitChar (n % 10)], ?_, by simp, ?_, ?_⟩
      · simp [Nat.toDigitsCore, h0, hl]
      · intro c hc
        rcases List.mem_append.mp hc with hc | hc
        · exact hdig c hc
        · simp only [List.mem_singleton] at hc
          subst hc
          exact digitChar_isDigit _ hd
      · intro acc
        rw [digitsValue_append, hval acc]
        rw [digitsValue_cons, digitsValue_nil, digitVal_digitChar _ hd]
        simp only [List.length_append, List.length_singleton, pow_succ]
        have := Nat.div_add_mod n 10
        nlinarith [this]

/-- The decimal literal of a natural number: non-empty, all digits, and read back
by `digitsValue` as the number itself. -/
theorem toDigits_spec (n : Nat) :
    Nat.toDigits 10 n ≠ [] ∧ (∀ c ∈ Nat.toDigits 10 n, c.isDigit = true) ∧
      digitsValue 0 (Nat.toDigits 10 n) = n := by
  obtain ⟨l, hl, hne, hdig, hval⟩ := toDigitsCore_spec (n + 1) n [] (Nat.lt_succ_self n)
  have e : Nat.toDigits 10 n = l := by simp [Nat.toDigits, hl]
  rw [e]
  exact ⟨hne, hdig, by simpa using hval 0⟩

theorem not_isSpace_of_isDigit (c : Char) (h : c.isDigit = true) : isSpace c = false := by
  cases hs : isSpace c with
  | false => rfl
  | true =>
    exfalso
    simp only [isSpace, Bool.or_eq_true, beq_iff_eq] at hs
    rcases hs with ((((hs | hs) | hs) | hs) | hs) | hs <;> subst hs <;> exact absurd h (by decide)

theorem takeSign_of_isDigit (c : Char) (cs : List Char) (h : c.isDigit = true) :
    takeSign (c :: cs) = (false, c :: cs) := by
  have h1 : c ≠ '-' := by rintro rfl; exact absurd h (by decide)
  have h2 : c ≠ '+' := by rintro rfl; exact absurd h (by decide)
  unfold takeSign
  split
  · rename_i r heq; exact absurd (List.cons.inj heq).1 h1
  · rename_i r heq; exact absurd (List.cons.inj heq).1 h2
  · rfl

/-- On a non-empty run of digits `std::stoi` returns its value when it fits `int`. -/
theorem stoi_digits (ds : List Char) (hne : ds ≠ []) (hd : ∀ c ∈ ds, c.isDigit = true) :
    stoi ⟨ds⟩ = if 2147483647 < (digitsValue 0 ds : Int) then .error .outOfRange
      else .ok (digitsValue 0 ds : Int) := by
  obtain ⟨c, cs, rfl⟩ := List.exists_cons_of_ne_nil hne
  have hc : c.isDigit = true := hd c (List.mem_cons_self _ _)
  have hdrop : List.dropWhile isSpace (c :: cs) = c :: cs := by
    simp [List.dropWhile, not_isSpace_of_isDigit c hc]
  have htake : List.takeWhile Char.isDigit (c :: cs) = c :: cs :=
    List.takeWhile_eq_self_iff.mpr hd
  have hnn : (0 : Int) ≤ (digitsValue 0 (c :: cs) : Int) := Int.ofNat_nonneg _
  simp only [stoi, hdrop, takeSign_of_isDigit c cs hc, htake]
  simp only [reduceCtorEq, if_false, Bool.false_eq_true]
  split_ifs <;> first | rfl | (exfalso; omega)

/-- On a minus sign followed by a non-empty run of digits `std::stoi` returns the
negated value when it fits `int`. -/
theorem stoi_neg_digits (ds : List Char) (hne : ds ≠ []) (hd : ∀ c ∈ ds, c.isDigit = true) :
    stoi ⟨'-' :: ds⟩ = if -(digitsValue 0 ds : Int) < -2147483648 then .error .outOfRange
      else .ok (-(digitsValue 0 ds : Int)) := by
  have hdrop : List.dropWhile isSpace ('-' :: ds) = '-' :: ds := by
    have : isSpace '-' = false := by decide
    simp [List.dropWhile, this]
  have hsign : takeSign ('-' :: ds) = (true, ds) := rfl
  have htake : List.takeWhile Char.isDigit ds = ds := List.takeWhile_eq_self_iff.mpr hd
  have hnn : (0 : Int) ≤ (digitsValue 0 ds : Int) := Int.ofNat_nonneg _
  simp only [stoi, hdrop, hsign, htake]
  simp only [hne, if_false, if_true]
  split_ifs <;> first | rfl | (exfalso; omega)

/-- `std::stoi` on the decimal literal of an integer: the integer itself when it
fits a 32-bit `int`, `std::out_of_range` otherwise. -/
theorem stoi_toString (n : Int) :
    stoi (toString n) = if -2147483648 ≤ n ∧ n ≤ 2147483647 then .ok n
      else .error .outOfRange := by
  cases n with
  | ofNat m =>
    have e : toString (Int.ofNat m) = ⟨Nat.toDigits 10 m⟩ := rfl
    obtain ⟨hne, hdig, hval⟩ := toDigits_spec m
    rw [e, stoi_digits _ hne hdig, hval]
    simp only [Int.ofNat_eq_coe]
    split_ifs <;> first | rfl | (exfalso; omega)
  | negSucc m =>
    have e : toString (Int.negSucc m) = ⟨'-' :: Nat.toDigits 10 (m + 1)⟩ := rfl
    obtain ⟨hne, hdig, hval⟩ := toDigits_spec (m + 1)
    rw [e, stoi_neg_digits _ hne hdig, hval]
    have hm : Int.negSucc m = -((m + 1 : Nat) : Int) := rfl
    rw [hm]
    split_ifs <;> first | rfl | (exfalso; omega)

/-! ## Lemmas on `exec` -/

theorem exec_nil (env : Env) (k : Nat) (st : RendererState) (v : Int) :
    exec env k st v [] = ⟨[], none, st, v⟩ := by
  simp only [exec]

theorem exec_cons_returned (env : Env) (k : Nat) (st : RendererState) (v w : Int) (c : Call)
    (cs : List Call) (h : env.outcome k c = .returned w) :
    exec env k st v (c :: cs) =
      ⟨⟨c, st, .returned w⟩ :: (exec env (k + 1) (step env c st) w cs).events,
        (exec env (k + 1) (step env c st) w cs).raised,
        (exec env (k + 1) (step env c st) w cs).state,
        (exec env (k + 1) (step env c st) w cs).last⟩ := by
  simp only [exec, h]

theorem exec_cons_threw (env : Env) (k : Nat) (st : RendererState) (v : Int) (c : Call)
    (cs : List Call) (h : ∀ w, env.outcome k c ≠ .returned w) :
    exec env k st v (c :: cs) = ⟨[⟨c, st, env.outcome k c⟩], some (env.outcome k c), st, 0⟩ := by
  cases ho : env.outcome k c with
  | returned w => exact absurd ho (h w)
  | threwStd => simp only [exec, ho]
  | threwOther => simp only [exec, ho]

/-- Either a call returns or it throws. -/
theorem outcome_cases (o : Outcome) : (∃ w, o = .returned w) ∨ (∀ w, o ≠ .returned w) := by
  cases o with
  | returned w => exact Or.inl ⟨w, rfl⟩
  | threwStd => exact Or.inr (fun w h => by cases h)
  | threwOther => exact Or.inr (fun w h => by cases h)

/-- Every event of a sequence is one of its calls. -/
theorem exec_call_mem (env : Env) (cs : List Call) : ∀ (k : Nat) (st : RendererState) (v : Int)
    (e : Event), e ∈ (exec env k st v cs).events → e.call ∈ cs := by
  induction cs with
  | nil => intro k st v e h; simp [exec_nil] at h
  | cons c cs ih =>
    intro k st v e h
    rcases outcome_cases (env.outcome k c) with ⟨w, hw⟩ | hw
    · rw [exec_cons_returned env k st v w c cs hw] at h
      rcases List.mem_cons.mp h with h | h
      · subst h; exact List.mem_cons_self _ _
      · exact List.mem_cons_of_mem _ (ih _ _ _ e h)
    · rw [exec_cons_threw env k st v c cs hw] at h
      simp only [List.mem_singleton] at h
      subst h; exact List.mem_cons_self _ _

/-- The calls made are an initial part of the sequence, in its order. -/
theorem exec_calls_initial (env : Env) (cs : List Call) : ∀ (k : Nat) (st : RendererState) (v : Int),
    (exec env k st v cs).events.map Event.call <+: cs := by
  induction cs with
  | nil => intro k st v; simp [exec_nil]
  | cons c cs ih =>
    intro k st v
    rcases outcome_cases (env.outcome k c) with ⟨w, hw⟩ | hw
    · rw [exec_cons_returned env k st v w c cs hw]
      simpa using ih (k + 1) (step env c st) w
    · rw [exec_cons_threw env k st v c cs hw]
      simp

/-- An event of a sequence either returned or is the exception that stopped it. -/
theorem exec_outcome (env : Env) (cs : List Call) : ∀ (k : Nat) (st : RendererState) (v : Int)
    (e : Event), e ∈ (exec env k st v cs).events →
      (∃ w, e.outcome = .returned w) ∨ (exec env k st v cs).raised = some e.outcome := by
  induction cs with
  | nil => intro k st v e h; simp [exec_nil] at h
  | cons c cs ih =>
    intro k st v e h
    rcases outcome_cases (env.outcome k c) with ⟨w, hw⟩ | hw
    · rw [exec_cons_returned env k st v w c cs hw] at h ⊢
      rcases List.mem_cons.mp h with h | h
      · subst h; exact Or.inl ⟨w, rfl⟩
      · exact ih _ _ _ e h
    · rw [exec_cons_threw env k st v c cs hw] at h ⊢
      simp only [List.mem_singleton] at h
      subst h; exact Or.inr rfl

/-- The exception that stops a sequence is not a return and is the outcome of one
of its events. -/
theorem exec_raised_some (env : Env) (cs : List Call) : ∀ (k : Nat) (st : RendererState)
    (v : Int) (o : Outcome), (exec env k st v cs).raised = some o →
      (∀ w, o ≠ .returned w) ∧ ∃ e ∈ (exec env k st v cs).events, e.outcome = o := by
  induction cs with
  | nil => intro k st v o h; simp [exec_nil] at h
  | cons c cs ih =>
    intro k st v o h
    rcases outcome_cases (env.outcome k c) with ⟨w, hw⟩ | hw
    · rw [exec_cons_returned env k st v w c cs hw] at h ⊢
      obtain ⟨h1, e, he, h2⟩ := ih _ _ _ o h
      exact ⟨h1, e, List.mem_cons_of_mem _ he, h2⟩
    · rw [exec_cons_threw env k st v c cs hw] at h ⊢
      simp only [Option.some.injEq] at h
      subst h
      exact ⟨hw, _, List.mem_singleton.mpr rfl, rfl⟩

/-- A sequence that no exception stopped made all its calls. -/
theorem exec_raised_none (env : Env) (cs : List Call) : ∀ (k : Nat) (st : RendererState)
    (v : Int), (exec env k st v cs).raised = none →
      (exec env k st v cs).events.map Event.call = cs := by
  induction cs with
  | nil => intro k st v _; simp [exec_nil]
  | cons c cs ih =>
    intro k st v h
    rcases outcome_cases (env.outcome k c) with ⟨w, hw⟩ | hw
    · rw [exec_cons_returned env k st v w c cs hw] at h ⊢
      simpa using ih _ _ _ h
    · rw [exec_cons_threw env k st v c cs hw] at h
      simp at h

/-- The state an event found is the state reached by the calls before it. -/
theorem exec_before (env : Env) (cs : List Call) : ∀ (k : Nat) (st : RendererState) (v : Int)
    (e : Event), e ∈ (exec env k st v cs).events →
      ∃ i, i < cs.length ∧ cs.get? i = some e.call ∧
        e.before = (cs.take i).foldl (fun s c => step env c s) st := by
  induction cs with
  | nil => intro k st v e h; simp [exec_nil] at h
  | cons c cs ih =>
    intro k st v e h
    have key : e = ⟨c, st, env.outcome k c⟩ ∨
        e ∈ (exec env (k + 1) (step env c st) (match env.outcome k c with
          | .returned w => w | _ => 0) cs).events := by
      rcases outcome_cases (env.outcome k c) with ⟨w, hw⟩ | hw
      · rw [exec_cons_returned env k st v w c cs hw] at h
        rcases List.mem_cons.mp h with h | h
        · left; rw [hw]; exact h
        · right; rw [hw]; exact h
      · rw [exec_cons_threw env k st v c cs hw] at h
        left; exact List.mem_singleton.mp h
    rcases key with h | h
    · subst h
      exact ⟨0, by simp, by simp, by simp⟩
    · obtain ⟨i, hi, hget, hbef⟩ := ih _ _ _ e h
      exact ⟨i + 1, by simpa using hi, by simpa using hget, by simpa using hbef⟩

/-! ## Lemmas on the resolution -/

/-- Whatever the arguments, the resolution lies between 64 and 2048. -/
theorem resolutionTarget_bounds (argv : List String) :
    64 ≤ resolutionTarget argv ∧ resolutionTarget argv ≤ 2048 := by
  unfold resolutionTarget
  split_ifs with h
  · split
    · rename_i n _
      simp only
      split_ifs with h2
      · omega
      · omega
    · omega
  · omega

/-- The resolution for a resolution argument that is the decimal literal of `n`. -/
theorem resolutionTarget_literal (n : Int) (prog input output : String) (rest : List String) :
    resolutionTarget (prog :: input :: output :: toString n :: rest) =
      if 64 ≤ n ∧ n ≤ 2048 then n.toNat else 512 := by
  have hlen : 4 ≤ (prog :: input :: output :: toString n :: rest).length := by simp
  have hget : (prog :: input :: output :: toString n :: rest).getD 3 "" = toString n := rfl
  unfold resolutionTarget
  rw [if_pos hlen, hget, stoi_toString]
  by_cases hr : -2147483648 ≤ n ∧ n ≤ 2147483647
  · rw [if_pos hr]
    simp only [toUnsigned]
    by_cases hneg : n < 0
    · have e : n % 4294967296 = n + 4294967296 := by omega
      rw [e]
      split_ifs <;> omega
    · have e : n % 4294967296 = n := by omega
      rw [e]
      split_ifs <;> omega
  · rw [if_neg hr]
    simp only
    split_ifs <;> omega

/-- Every run of `runCLIMode` has one of the shapes. -/
theorem runCLIMode_shape (env : Env) (argv : List String) :
    Shape env argv (runCLIMode env argv) := by
  unfold runCLIMode
  by_cases h1 : helpRequested argv = true
  · rw [if_pos h1]; exact .help h1
  rw [if_neg h1]
  have h1f : helpRequested argv = false := by simpa using h1
  by_cases h2 : argv.length < 2
  · rw [if_pos h2]; exact .usage h1f h2
  rw [if_neg h2]
  have h2f : 2 ≤ argv.length := by omega
  by_cases h0 : existsThrows env argv = true
  · rw [if_pos h0]; exact .existsThrew h1f h2f h0
  rw [if_neg h0]
  have h0f : existsThrows env argv = false := by simpa using h0
  cases h3 : env.fileExists (argv.getD 1 "") with
  | false =>
    simp only [Bool.not_false, if_true]
    exact .missing h1f h2f h3 h0f
  | true =>
    simp only [Bool.not_true, Bool.false_eq_true, if_false]
    cases h4 : (contextRun env).raised with
    | some o =>
      simp only [Option.isSome_some, if_true]
      exact .contextThrew h1f h2f h3 (by simp [h4]) h0f
    | none =>
      simp only [Option.isSome_none, Bool.false_eq_true, if_false]
      by_cases h5 : (contextRun env).last = -1
      · rw [if_pos h5]; exact .initFailed h1f h2f h3 h4 h5 h0f
      rw [if_neg h5]
      cases h6 : (rendererRun env).raised with
      | some o =>
        simp only [Option.isSome_some, if_true]
        exact .rendererThrew h1f h2f h3 h4 h5 (by simp [h6]) h0f
      | none =>
        simp only [Option.isSome_none, Bool.false_eq_true, if_false]
        cases h7 : (tryRun env argv).raised with
        | none => exact .completed h1f h2f h3 h4 h5 h6 h7 h0f
        | some o =>
          cases o with
          | returned w =>
            exact absurd rfl ((exec_raised_some _ _ _ _ _ _ h7).1 w)
          | threwStd => exact .caught h1f h2f h3 h4 h5 h6 h7 h0f
          | threwOther => exact .escaped h1f h2f h3 h4 h5 h6 h7 h0f

/-- The existence check is recorded as a call of `std::filesystem::exists`. -/
theorem existsEvent_call (env : Env) (argv : List String) :
    (existsEvent env argv).call = .fsExists (argv.getD 1 "") := rfl

/-- When the existence check throws, its event is not a return. -/
theorem existsEvent_threw (env : Env) (argv : List String) (h : existsThrows env argv = true) :
    ∀ w, (existsEvent env argv).outcome ≠ .returned w := by
  intro w hw
  unfold existsThrows at h
  unfold existsEvent at hw
  cases ho : env.outcome 0 (.fsExists (argv.getD 1 "")) with
  | returned v => rw [ho] at h; simp at h
  | threwStd => rw [ho] at hw; simp at hw
  | threwOther => rw [ho] at hw; simp at hw

/-- When the existence check returns, it returns whether the file exists. -/
theorem existsEvent_returned (env : Env) (argv : List String)
    (h : existsThrows env argv = false) :
    (existsEvent env argv).outcome =
      .returned (if env.fileExists (argv.getD 1 "") then 1 else 0) := by
  unfold existsThrows at h
  unfold existsEvent
  cases ho : env.outcome 0 (.fsExists (argv.getD 1 "")) with
  | returned v => rfl
  | threwStd => rw [ho] at h; simp at h
  | threwOther => rw [ho] at h; simp at h

/-- Every event of a run is the existence check, an event of one of the three
executed sequences, or the final `glfwTerminate`. -/
theorem trace_cases (env : Env) (argv : List String) (e : Event)
    (h : e ∈ (runCLIMode env argv).trace) :
    e = existsEvent env argv ∨ e ∈ (contextRun env).events ∨ e ∈ (rendererRun env).events ∨
      e ∈ (tryRun env argv).events ∨ e = terminateEvent (tryRun env argv).state := by
  have hs := runCLIMode_shape env argv
  generalize runCLIMode env argv = run at hs h
  cases hs <;>
    simp only [List.mem_cons, List.mem_append, List.mem_singleton, List.not_mem_nil,
      List.cons_append] at h <;> tauto

/-- The conversion resolution and the buffer size every run uses are those computed
from the arguments: `gaussianBufferFromSize` receives the 32-bit product
`resolutionTarget * resolutionTarget`, `setViewportResolutionForConversion`
receives `resolutionTarget`, and `exportPlySynchronous` receives `outputFile`
and format 0. -/
theorem trace_arguments (env : Env) (argv : List String) (e : Event)
    (h : e ∈ (runCLIMode env argv).trace) :
    (∀ x, e.call = .gaussianBufferFromSize x →
      x = (resolutionTarget argv * resolutionTarget argv) % 4294967296) ∧
    (∀ x, e.call = .setViewportResolutionForConversion x → x = resolutionTarget argv) ∧
    (∀ q f, e.call = .exportPlySynchronous q f → q = outputFile argv ∧ f = 0) := by
  have hmem : e.call ∈ script argv := by
    rcases trace_cases env argv e h with h | h | h | h | h
    · subst h; simp [script, existsEvent]
    · have := exec_call_mem _ _ _ _ _ _ h
      simp only [script, List.mem_cons, List.mem_append]; tauto
    · have := exec_call_mem _ _ _ _ _ _ h
      simp only [script, List.mem_cons, List.mem_append]; tauto
    · have := exec_call_mem _ _ _ _ _ _ h
      simp only [script, List.mem_cons, List.mem_append]; tauto
    · subst h; simp [script, terminateEvent]
  refine ⟨?_, ?_, ?_⟩
  · intro x hx
    rw [hx] at hmem
    simp [script, contextCalls, rendererCalls, tryBlock] at hmem
    exact hmem
  · intro x hx
    rw [hx] at hmem
    simp [script, contextCalls, rendererCalls, tryBlock] at hmem
    exact hmem
  · intro q f hx
    rw [hx] at hmem
    simp [script, contextCalls, rendererCalls, tryBlock] at hmem
    exact hmem

/-! ## Lemmas on paths -/

theorem takeWhile_notSep_reverse (f rest : List Char) (hf : '/' ∉ f) :
    (f.reverse ++ '/' :: rest).takeWhile (fun c => c != '/') = f.reverse := by
  rw [List.takeWhile_append_of_pos]
  · simp
  · intro a ha
    have : a ≠ '/' := by rintro rfl; exact hf (List.mem_reverse.mp ha)
    simpa using this

theorem dropWhile_notSep_reverse (f rest : List Char) (hf : '/' ∉ f) :
    (f.reverse ++ '/' :: rest).dropWhile (fun c => c != '/') = '/' :: rest := by
  rw [List.dropWhile_append_of_pos]
  · simp
  · intro a ha
    have : a ≠ '/' := by rintro rfl; exact hf (List.mem_reverse.mp ha)
    simpa using this

/-- The file name of `dir/f` is `f`. -/
theorem filename_append (dir f : List Char) (hf : '/' ∉ f) :
    filename (dir ++ '/' :: f) = f := by
  unfold filename
  have e : (dir ++ '/' :: f).reverse = f.reverse ++ '/' :: dir.reverse := by simp
  rw [e, takeWhile_notSep_reverse f _ hf, List.reverse_reverse]

/-- A path without a separator is its own file name. -/
theorem filename_of_no_sep (f : List Char) (hf : '/' ∉ f) : filename f = f := by
  unfold filename
  have e : f.reverse.takeWhile (fun c => c != '/') = f.reverse := by
    rw [List.takeWhile_eq_self_iff]
    intro a ha
    have : a ≠ '/' := by rintro rfl; exact hf (List.mem_reverse.mp ha)
    simpa using this
  rw [e, List.reverse_reverse]

/-- The stem of a file name `name.ext`, where `ext` has no further period: only the
last extension is removed. -/
theorem stem_of_filename (p name ext : List Char) (hp : filename p = name ++ '.' :: ext)
    (hname : name ≠ []) (hext : ext ≠ []) (hdot : '.' ∉ ext) : stem p = name := by
  unfold stem
  simp only [hp]
  have hlen : 3 ≤ (name ++ '.' :: ext).length := by
    have h1 : 0 < name.length := List.length_pos.mpr hname
    have h2 : 0 < ext.length := List.length_pos.mpr hext
    simp only [List.length_append, List.length_cons]
    omega
  have hne : ¬ (name ++ '.' :: ext = ['.'] ∨ name ++ '.' :: ext = ['.', '.']) := by
    rintro (h | h) <;> rw [h] at hlen <;> simp at hlen
  rw [if_neg hne]
  have e : (name ++ '.' :: ext).reverse = ext.reverse ++ '.' :: name.reverse := by simp
  have hd : (ext.reverse ++ '.' :: name.reverse).dropWhile (fun c => c != '.') =
      '.' :: name.reverse := by
    rw [List.dropWhile_append_of_pos]
    · simp
    · intro a ha
      have : a ≠ '.' := by rintro rfl; exact hdot (List.mem_reverse.mp ha)
      simpa using this
  rw [e, hd]
  simp [hname]

/-- The parent of `dir/f`, for a `dir` that does not end in a separator, is `dir`. -/
theorem parent_path_append (dir f : List Char) (hdir : dir ≠ [])
    (hlast : dir.getLast? ≠ some '/') (hf : '/' ∉ f) :
    parent_path (dir ++ '/' :: f) = dir := by
  obtain ⟨c, hc⟩ : ∃ c, dir.getLast? = some c := by
    cases h : dir.getLast? with
    | none => exact absurd (List.getLast?_eq_none_iff.mp h) hdir
    | some c => exact ⟨c, rfl⟩
  obtain ⟨d, rfl⟩ := List.getLast?_eq_some_iff.mp hc
  have hc2 : c ≠ '/' := by
    intro h; exact hlast (h ▸ hc)
  unfold parent_path
  have e : (d ++ [c] ++ '/' :: f).reverse = f.reverse ++ '/' :: (c :: d.reverse) := by simp
  rw [e, dropWhile_notSep_reverse f _ hf]
  have hb : (c == '/') = false := by simpa using hc2
  simp [List.dropWhile, hb]

/-- A path without a separator has an empty parent. -/
theorem parent_path_of_no_sep (f : List Char) (hf : '/' ∉ f) : parent_path f = [] := by
  unfold parent_path
  have e : f.reverse.dropWhile (fun c => c != '/') = [] := by
    rw [List.dropWhile_eq_nil_iff]
    intro a ha
    have : a ≠ '/' := by rintro rfl; exact hf (List.mem_reverse.mp ha)
    simpa using this
  simp [e]

/-- Appending a relative path to an empty one gives the relative path. -/
theorem pathAppend_nil (q : List Char) : pathAppend [] q = q := by
  unfold pathAppend
  split_ifs with h1 h2
  · rfl
  · exact absurd rfl h2
  · rfl

/-- Appending a relative path to a path that ends in a file name inserts a separator. -/
theorem pathAppend_dir (dir q : List Char) (hdir : dir ≠ []) (hlast : dir.getLast? ≠ some '/')
    (hq : q.head? ≠ some '/') : pathAppend dir q = dir ++ '/' :: q := by
  unfold pathAppend
  rw [if_neg hq]
  have hfn : filename dir ≠ [] := by
    obtain ⟨c, hc⟩ : ∃ c, dir.getLast? = some c := by
      cases h : dir.getLast? with
      | none => exact absurd (List.getLast?_eq_none_iff.mp h) hdir
      | some c => exact ⟨c, rfl⟩
    obtain ⟨d, rfl⟩ := List.getLast?_eq_some_iff.mp hc
    have hc2 : c ≠ '/' := by
      intro h; exact hlast (h ▸ hc)
    have hb : (c != '/') = true := by simpa using hc2
    unfold filename
    simp [List.takeWhile, hb]
  rw [if_pos hfn]

/-! ## More on the resolution -/

/-- A value `std::stoi` returns fits a 32-bit `int`. -/
theorem stoi_range (str : String) (n : Int) (h : stoi str = .ok n) :
    -2147483648 ≤ n ∧ n ≤ 2147483647 := by
  unfold stoi at h
  simp only at h
  split_ifs at h with h1 h2 h3 h4
  · simp only [Except.ok.injEq] at h; omega
  · simp only [Except.ok.injEq] at h; omega

/-- When `std::stoi` reads no number between 64 and 2048 from `argv[3]`, the
resolution is the default. -/
theorem resolutionTarget_fallback (prog input output arg : String) (rest : List String)
    (h : ∀ n, stoi arg = .ok n → n < 64 ∨ 2048 < n) :
    resolutionTarget (prog :: input :: output :: arg :: rest) = 512 := by
  have hlen : 4 ≤ (prog :: input :: output :: arg :: rest).length := by simp
  have hget : (prog :: input :: output :: arg :: rest).getD 3 "" = arg := rfl
  unfold resolutionTarget
  rw [if_pos hlen, hget]
  cases hs : stoi arg with
  | error err => rfl
  | ok n =>
    have hr := stoi_range arg n hs
    have hn := h n hs
    simp only [toUnsigned]
    by_cases hneg : n < 0
    · have e : n % 4294967296 = n + 4294967296 := by omega
      rw [e]
      split_ifs <;> omega
    · have e : n % 4294967296 = n := by omega
      rw [e]
      split_ifs <;> omega

/-! ## The claims on the resolution -/

/-- C1: for every resolution argument that is the literal of an integer `n` with
`n < 64` or `n > 2048` (negative integers and integers too large for `int`
included), the resolution of the run is 512, and every call of
`gaussianBufferFromSize` and of `setViewportResolutionForConversion` in the run
is made with the default, `512 * 512` and `512`, never with a value from `n`. -/
theorem C1_out_of_range_resolution (n : Int) (hn : n < 64 ∨ 2048 < n)
    (prog input output : String) (rest : List String) (env : Env) :
    resolutionTarget (prog :: input :: output :: toString n :: rest) = 512 ∧
    ∀ e ∈ (runCLIMode env (prog :: input :: output :: toString n :: rest)).trace,
      (∀ x, e.call = .gaussianBufferFromSize x → x = 512 * 512) ∧
      (∀ x, e.call = .setViewportResolutionForConversion x → x = 512) := by
  have hres : resolutionTarget (prog :: input :: output :: toString n :: rest) = 512 := by
    rw [resolutionTarget_literal]
    have : ¬ (64 ≤ n ∧ n ≤ 2048) := by omega
    rw [if_neg this]
  refine ⟨hres, ?_⟩
  intro e he
  obtain ⟨h1, h2, _⟩ := trace_arguments env _ e he
  rw [hres] at h1 h2
  exact ⟨fun x hx => by rw [h1 x hx], h2⟩

/-- C1, at the argument `-5` in the environment where everything succeeds. -/
theorem C1_out_of_range_resolution_witness :
    ((-5 : Int) < 64 ∨ 2048 < (-5 : Int)) ∧
    (resolutionTarget ("mesh2splat" :: "in.glb" :: "out.ply" :: toString (-5 : Int) :: []) = 512 ∧
    ∀ e ∈ (runCLIMode quietEnv
        ("mesh2splat" :: "in.glb" :: "out.ply" :: toString (-5 : Int) :: [])).trace,
      (∀ x, e.call = .gaussianBufferFromSize x → x = 512 * 512) ∧
      (∀ x, e.call = .setViewportResolutionForConversion x → x = 512)) :=
  ⟨by decide, C1_out_of_range_resolution (-5) (by decide) "mesh2splat" "in.glb" "out.ply" []
    quietEnv⟩

/-- C3: without a resolution argument (`argc < 4`) the resolution is 512; for a
resolution argument that is the decimal literal of an integer `n` with
`64 <= n <= 2048` the resolution is `n`, and `n` is what the run passes to
`setViewportResolutionForConversion`. -/
theorem C3_resolution_default_and_in_range :
    (∀ argv : List String, argv.length < 4 → resolutionTarget argv = 512) ∧
    (∀ (n : Nat) (prog input output : String) (rest : List String), 64 ≤ n → n ≤ 2048 →
      resolutionTarget (prog :: input :: output :: toString n :: rest) = n ∧
      ∀ (env : Env), ∀ e ∈ (runCLIMode env (prog :: input :: output :: toString n :: rest)).trace,
        ∀ x, e.call = .setViewportResolutionForConversion x → x = n) := by
  constructor
  · intro argv h
    unfold resolutionTarget
    rw [if_neg (by omega)]
  · intro n prog input output rest h1 h2
    have hres : resolutionTarget (prog :: input :: output :: toString n :: rest) = n := by
      have e : toString n = toString (n : Int) := rfl
      rw [e, resolutionTarget_literal]
      have : (64 : Int) ≤ (n : Int) ∧ (n : Int) ≤ 2048 := by omega
      rw [if_pos this]
      simp
    refine ⟨hres, ?_⟩
    intro env e he x hx
    obtain ⟨_, h, _⟩ := trace_arguments env _ e he
    rw [hres] at h
    exact h x hx

/-- C3 at the bounds and inside: 64, 2048 and 100 are used unchanged, and two
arguments give 512. -/
theorem C3_resolution_examples :
    resolutionTarget ["mesh2splat", "in.glb", "out.ply", "64"] = 64 ∧
    resolutionTarget ["mesh2splat", "in.glb", "out.ply", "2048"] = 2048 ∧
    resolutionTarget ["mesh2splat", "in.glb", "out.ply", "100"] = 100 ∧
    resolutionTarget ["mesh2splat", "in.glb"] = 512 := by
  refine ⟨?_, ?_, ?_, ?_⟩ <;> decide

/-- C10: whatever the arguments, the resolution `R` lies in `[64, 2048]`, the
32-bit product `R * R` does not wrap and lies in `[4096, 4194304]`, and in every
run each call of `gaussianBufferFromSize` receives `R * R` for the same `R` that
each call of `setViewportResolutionForConversion` receives. -/
theorem C10_buffer_capacity (env : Env) (argv : List String) :
    64 ≤ resolutionTarget argv ∧ resolutionTarget argv ≤ 2048 ∧
    (resolutionTarget argv * resolutionTarget argv) % 4294967296 =
      resolutionTarget argv * resolutionTarget argv ∧
    ∀ e ∈ (runCLIMode env argv).trace,
      (∀ x, e.call = .gaussianBufferFromSize x →
        x = resolutionTarget argv * resolutionTarget argv ∧ 4096 ≤ x ∧ x ≤ 4194304) ∧
      (∀ x, e.call = .setViewportResolutionForConversion x → x = resolutionTarget argv) := by
  obtain ⟨hlo, hhi⟩ := resolutionTarget_bounds argv
  have hsq : resolutionTarget argv * resolutionTarget argv ≤ 2048 * 2048 :=
    Nat.mul_le_mul hhi hhi
  have hsq2 : 64 * 64 ≤ resolutionTarget argv * resolutionTarget argv :=
    Nat.mul_le_mul hlo hlo
  have hmod : (resolutionTarget argv * resolutionTarget argv) % 4294967296 =
      resolutionTarget argv * resolutionTarget argv := Nat.mod_eq_of_lt (by omega)
  refine ⟨hlo, hhi, hmod, ?_⟩
  intro e he
  obtain ⟨h1, h2, _⟩ := trace_arguments env argv e he
  refine ⟨?_, h2⟩
  intro x hx
  have := h1 x hx
  rw [hmod] at this
  subst this
  exact ⟨rfl, by omega, by omega⟩

/-- C10 on a run: with the resolution argument 2048 the buffer is requested with
`2048 * 2048 = 4194304` elements and the viewport with 2048. -/
theorem C10_buffer_capacity_example :
    Call.gaussianBufferFromSize 4194304 ∈
      (runCLIMode quietEnv ["mesh2splat", "in.glb", "out.ply", "2048"]).trace.map Event.call ∧
    Call.setViewportResolutionForConversion 2048 ∈
      (runCLIMode quietEnv ["mesh2splat", "in.glb", "out.ply", "2048"]).trace.map Event.call := by
  constructor <;> decide

/-! ## The claim on the output path -/

/-- The characters of a stem are characters of the file name. -/
theorem mem_filename_of_mem_stem (p : List Char) (c : Char) (h : c ∈ stem p) :
    c ∈ filename p := by
  unfold stem at h
  simp only at h
  split_ifs at h with h1
  · exact h
  · split at h
    · exact h
    · rename_i x rest heq
      split_ifs at h with h2
      · exact h
      · have h3 : c ∈ x :: rest := List.mem_cons_of_mem _ (List.mem_reverse.mp h)
        rw [← heq] at h3
        exact List.mem_reverse.mp ((List.dropWhile_suffix _).subset h3)

/-- With two arguments the output path is generated from the input path. -/
theorem outputFile_default (prog input : String) :
    outputFile [prog, input] =
      ⟨pathAppend (parent_path input.data) (stem input.data ++ ".ply".data)⟩ := by
  simp [outputFile, defaultOutput]

/-- With three arguments or more the output path is the third. -/
theorem outputFile_given (prog input output : String) (rest : List String) :
    outputFile (prog :: input :: output :: rest) = output := by
  simp [outputFile]

/-- C4: with no output argument (`argc == 2`) the output path is the parent
directory of the input joined with the stem of its file name followed by `.ply`:
`dir/name.ext` gives `dir/name.ply` where only the last extension `ext` is
removed, and an input without a directory part gives the bare file name
`name.ply`.  With an output argument (`argc >= 3`) the output path is `argv[2]`
as given.  The path so chosen is the one `exportPlySynchronous` receives. -/
theorem C4_output_path :
    (∀ prog input : String, outputFile [prog, input] =
      ⟨pathAppend (parent_path input.data) (stem input.data ++ ".ply".data)⟩) ∧
    (∀ (prog input output : String) (rest : List String),
      outputFile (prog :: input :: output :: rest) = output) ∧
    (∀ (prog : String) (dir name ext : List Char), dir ≠ [] → dir.getLast? ≠ some '/' →
      name ≠ [] → '/' ∉ name → ext ≠ [] → '/' ∉ ext → '.' ∉ ext →
      outputFile [prog, ⟨dir ++ '/' :: (name ++ '.' :: ext)⟩] =
        ⟨dir ++ '/' :: (name ++ ".ply".data)⟩) ∧
    (∀ (prog : String) (name ext : List Char),
      name ≠ [] → '/' ∉ name → ext ≠ [] → '/' ∉ ext → '.' ∉ ext →
      outputFile [prog, ⟨name ++ '.' :: ext⟩] = ⟨name ++ ".ply".data⟩) ∧
    (∀ prog input : String, '/' ∉ input.data →
      outputFile [prog, input] = ⟨stem input.data ++ ".ply".data⟩ ∧
      '/' ∉ (outputFile [prog, input]).data) ∧
    (∀ (env : Env) (argv : List String), ∀ e ∈ (runCLIMode env argv).trace,
      ∀ q f, e.call = .exportPlySynchronous q f → q = outputFile argv) := by
  refine ⟨outputFile_default, outputFile_given, ?_, ?_, ?_, ?_⟩
  · intro prog dir name ext hdir hlast hname hsn hext hse hde
    have hf : '/' ∉ name ++ '.' :: ext := by
      simp only [List.mem_append, List.mem_cons, not_or]
      exact ⟨hsn, by decide, hse⟩
    have hfn : filename (dir ++ '/' :: (name ++ '.' :: ext)) = name ++ '.' :: ext :=
      filename_append dir _ hf
    have hstem := stem_of_filename _ name ext hfn hname hext hde
    have hpar := parent_path_append dir _ hdir hlast hf
    have hq : (name ++ ".ply".data).head? ≠ some '/' := by
      obtain ⟨c, cs, rfl⟩ := List.exists_cons_of_ne_nil hname
      simp only [List.cons_append, List.head?_cons, ne_eq, Option.some.injEq]
      rintro rfl
      exact hsn (List.mem_cons_self _ _)
    rw [outputFile_default]
    simp only
    rw [hstem, hpar, pathAppend_dir dir _ hdir hlast hq]
  · intro prog name ext hname hsn hext hse hde
    have hf : '/' ∉ name ++ '.' :: ext := by
      simp only [List.mem_append, List.mem_cons, not_or]
      exact ⟨hsn, by decide, hse⟩
    have hfn : filename (name ++ '.' :: ext) = name ++ '.' :: ext := filename_of_no_sep _ hf
    have hstem := stem_of_filename _ name ext hfn hname hext hde
    have hpar := parent_path_of_no_sep _ hf
    rw [outputFile_default]
    simp only
    rw [hstem, hpar, pathAppend_nil]
  · intro prog input hin
    have hpar := parent_path_of_no_sep _ hin
    have hout : outputFile [prog, input] = ⟨stem input.data ++ ".ply".data⟩ := by
      rw [outputFile_default, hpar, pathAppend_nil]
    refine ⟨hout, ?_⟩
    rw [hout]
    simp only [List.mem_append, not_or]
    constructor
    · intro h
      have h1 := mem_filename_of_mem_stem _ _ h
      rw [filename_of_no_sep _ hin] at h1
      exact hin h1
    · decide
  · intro env argv e he q f hq
    exact ((trace_arguments env argv e he).2.2 q f hq).1

/-- C4 on concrete inputs: an input in a directory with two extensions, an input
without a directory part, and an explicit output argument. -/
theorem C4_output_path_examples :
    outputFile ["mesh2splat", "models/robot.v2.glb"] = "models/robot.v2.ply" ∧
    outputFile ["mesh2splat", "robot.glb"] = "robot.ply" ∧
    outputFile ["mesh2splat", "/robot.glb"] = "/robot.ply" ∧
    outputFile ["mesh2splat", "robot.glb", "out/x.bin"] = "out/x.bin" := by
  refine ⟨?_, ?_, ?_, ?_⟩ <;> decide

/-! ## The claims on the exit status -/

/-- With an argument, `main` is `runCLIMode`. -/
theorem main_eq_runCLIMode (env : Env) (argv : List String) (h : 2 ≤ argv.length) :
    main env argv = runCLIMode env argv := by
  unfold main
  rw [if_pos h]

/-- A sequence stopped by an exception has an event that did not return. -/
theorem exec_raised_event (env : Env) (cs : List Call) (k : Nat) (st : RendererState) (v : Int)
    (h : (exec env k st v cs).raised ≠ none) :
    ∃ e ∈ (exec env k st v cs).events, ∀ w, e.outcome ≠ .returned w := by
  cases hr : (exec env k st v cs).raised with
  | none => exact absurd hr h
  | some o =>
    obtain ⟨h1, e, he, h2⟩ := exec_raised_some env cs k st v o hr
    exact ⟨e, he, fun w hw => h1 w (h2 ▸ hw)⟩

/-- In the context sequence, the event of `init()` either returned the value the
sequence ends with, no exception having stopped the sequence, or it is the
exception that stopped it. -/
theorem contextRun_init (env : Env) (e : Event) (he : e ∈ (contextRun env).events)
    (hc : e.call = .init) :
    ((contextRun env).raised = none ∧ e.outcome = .returned (contextRun env).last) ∨
      ((contextRun env).raised = some e.outcome ∧ ∀ w, e.outcome ≠ .returned w) := by
  unfold contextRun contextCalls at he ⊢
  rcases outcome_cases (env.outcome 1 .newGlewGlfwHandler) with ⟨w1, h1⟩ | h1
  · rw [exec_cons_returned env 1 _ _ w1 _ _ h1] at he ⊢
    rcases outcome_cases (env.outcome 2 .init) with ⟨w2, h2⟩ | h2
    · rw [exec_cons_returned env 2 _ _ w2 _ _ h2, exec_nil] at he ⊢
      simp only [List.mem_cons, List.mem_singleton, List.not_mem_nil, or_false] at he
      rcases he with he | he
      · subst he; cases hc
      · subst he; exact Or.inl ⟨rfl, rfl⟩
    · rw [exec_cons_threw env 2 _ _ _ _ h2] at he ⊢
      simp only [List.mem_cons, List.mem_singleton, List.not_mem_nil, or_false] at he
      rcases he with he | he
      · subst he; cases hc
      · subst he; exact Or.inr ⟨rfl, h2⟩
  · rw [exec_cons_threw env 1 _ _ _ _ h1] at he
    simp only [List.mem_singleton] at he
    subst he; cases hc

/-- C5, as the code has it: for every argument list whose `argv[1]` names a file
that does not exist, no model is loaded, no frame rendered, nothing exported and
no OpenGL context created (the only external call is the existence check).  When
`argv[1]` is not a help flag and `std::filesystem::exists` returns, the status is
-1; when `argv[1]` is a help flag, the usage text is printed and the status is 0;
when `std::filesystem::exists` throws, nothing catches the exception and it
leaves `main`. -/
theorem C5_missing_input (env : Env) (argv : List String) (hargc : 2 ≤ argv.length)
    (hmiss : env.fileExists (argv.getD 1 "") = false) :
    (helpRequested argv = false → existsThrows env argv = false →
      (main env argv).result = .returned (-1)) ∧
    (helpRequested argv = false → existsThrows env argv = true →
      (main env argv).result = .uncaught) ∧
    (helpRequested argv = true → (main env argv).result = .returned 0) ∧
    ∀ e ∈ (main env argv).trace, e.call = .fsExists (argv.getD 1 "") := by
  rw [main_eq_runCLIMode env argv hargc]
  have hs := runCLIMode_shape env argv
  generalize runCLIMode env argv = run at hs
  cases hs with
  | help h =>
    refine ⟨?_, ?_, ?_, ?_⟩
    · intro h2; rw [h] at h2; cases h2
    · intro h2; rw [h] at h2; cases h2
    · intro _; rfl
    · intro e he; simp at he
  | usage h1 h2 => omega
  | existsThrew h1 h2 h3 =>
    refine ⟨?_, ?_, ?_, ?_⟩
    · intro _ h; rw [h3] at h; cases h
    · intro _ _; rfl
    · intro h; rw [h1] at h; cases h
    · intro e he
      simp only [List.mem_singleton] at he
      subst he; rfl
  | missing h1 h2 h3 h4 =>
    refine ⟨?_, ?_, ?_, ?_⟩
    · intro _ _; rfl
    · intro _ h; rw [h4] at h; cases h
    · intro h; rw [h1] at h; cases h
    · intro e he
      simp only [List.mem_singleton] at he
      subst he; rfl
  | contextThrew h1 h2 h3 => rw [hmiss] at h3; cases h3
  | initFailed h1 h2 h3 => rw [hmiss] at h3; cases h3
  | rendererThrew h1 h2 h3 => rw [hmiss] at h3; cases h3
  | completed h1 h2 h3 => rw [hmiss] at h3; cases h3
  | caught h1 h2 h3 => rw [hmiss] at h3; cases h3
  | escaped h1 h2 h3 => rw [hmiss] at h3; cases h3

/-- C5 on a missing input file: status -1 and no call but the existence check. -/
theorem C5_missing_input_witness :
    2 ≤ ["mesh2splat", "nothere.glb"].length ∧
    emptyDiskEnv.fileExists (["mesh2splat", "nothere.glb"].getD 1 "") = false ∧
    ((helpRequested ["mesh2splat", "nothere.glb"] = false →
        existsThrows emptyDiskEnv ["mesh2splat", "nothere.glb"] = false →
        (main emptyDiskEnv ["mesh2splat", "nothere.glb"]).result = .returned (-1)) ∧
      (helpRequested ["mesh2splat", "nothere.glb"] = false →
        existsThrows emptyDiskEnv ["mesh2splat", "nothere.glb"] = true →
        (main emptyDiskEnv ["mesh2splat", "nothere.glb"]).result = .uncaught) ∧
      (helpRequested ["mesh2splat", "nothere.glb"] = true →
        (main emptyDiskEnv ["mesh2splat", "nothere.glb"]).result = .returned 0) ∧
      ∀ e ∈ (main emptyDiskEnv ["mesh2splat", "nothere.glb"]).trace,
        e.call = .fsExists (["mesh2splat", "nothere.glb"].getD 1 "")) :=
  ⟨by decide, rfl, C5_missing_input emptyDiskEnv ["mesh2splat", "nothere.glb"] (by decide) rfl⟩

/-- C5 fails as stated: `--help` names no existing file, and `main` returns 0. -/
theorem C5_counterexample :
    emptyDiskEnv.fileExists "--help" = false ∧
    (main emptyDiskEnv ["mesh2splat", "--help"]).result = .returned 0 ∧
    (main emptyDiskEnv ["mesh2splat", "help", "out.ply"]).result = .returned 0 := by
  refine ⟨rfl, ?_, ?_⟩ <;> decide

/-- C5 on three runs with a missing input: the existence check returns false and
the status is -1 after that one call; the existence check throws and the
exception leaves `main` after that one call; a help flag gives status 0 without
any call. -/
theorem C5_missing_input_examples :
    (main emptyDiskEnv ["mesh2splat", "nothere.glb"]).result = .returned (-1) ∧
    (main emptyDiskEnv ["mesh2splat", "nothere.glb"]).trace =
      [⟨.fsExists "nothere.glb", ⟨[], 1024, 1024⟩, .returned 0⟩] ∧
    brokenPathEnv.fileExists "loop/nothere.glb" = false ∧
    (main brokenPathEnv ["mesh2splat", "loop/nothere.glb"]).result = .uncaught ∧
    (main brokenPathEnv ["mesh2splat", "loop/nothere.glb"]).trace =
      [⟨.fsExists "loop/nothere.glb", ⟨[], 1024, 1024⟩, .threwStd⟩] ∧
    (main brokenPathEnv ["mesh2splat", "--help"]).trace = [] := by
  refine ⟨?_, ?_, rfl, ?_, ?_, ?_⟩ <;> decide

/-- No call of the `try` block is a set-up call, the existence check or `glfwTerminate`. -/
theorem tryBlock_not_setup (inputFile output : String) (r : Nat) (c : Call)
    (h : c ∈ tryBlock inputFile output r) :
    c ∉ contextCalls ∧ c ∉ rendererCalls ∧ c ≠ .glfwTerminate ∧ ∀ q, c ≠ .fsExists q := by
  simp only [tryBlock, List.mem_cons, List.mem_singleton, List.not_mem_nil, or_false] at h
  rcases h with h | h | h | h | h | h | h | h | h | h | h | h | h | h | h | h | h | h | h | h <;>
    subst h <;> simp [contextCalls, rendererCalls]

/-- The event of `init()` belongs to the context sequence. -/
theorem init_event_in_context (env : Env) (argv : List String) (e : Event)
    (he : e ∈ (runCLIMode env argv).trace) (hc : e.call = .init) :
    e ∈ (contextRun env).events := by
  rcases trace_cases env argv e he with h | h | h | h | h
  · subst h; cases hc
  · exact h
  · have := exec_call_mem _ _ _ _ _ e h
    rw [hc] at this; simp [rendererCalls] at this
  · have := exec_call_mem _ _ _ _ _ e h
    rw [hc] at this; simp [tryBlock] at this
  · subst h; cases hc

/-- If `init()` returned -1 in a run, the run returned -1. -/
theorem result_of_init_failure (env : Env) (argv : List String) (e : Event)
    (he : e ∈ (runCLIMode env argv).trace) (hc : e.call = .init)
    (ho : e.outcome = .returned (-1)) : (runCLIMode env argv).result = .returned (-1) := by
  have hctx : e ∈ (contextRun env).events := init_event_in_context env argv e he hc
  have hlast : (contextRun env).raised = none ∧ (contextRun env).last = -1 := by
    rcases contextRun_init env e hctx hc with ⟨h1, h2⟩ | ⟨_, h2⟩
    · rw [ho] at h2
      exact ⟨h1, by simpa using h2.symm⟩
    · exact absurd ho (h2 (-1))
  have hs := runCLIMode_shape env argv
  generalize runCLIMode env argv = run at hs he
  cases hs with
  | help h => simp at he
  | usage h1 h2 => simp at he
  | existsThrew h1 h2 h3 =>
    simp only [List.mem_singleton] at he
    subst he; cases hc
  | missing h1 h2 h3 => rfl
  | contextThrew h1 h2 h3 h4 => exact absurd hlast.1 h4
  | initFailed h1 h2 h3 h4 h5 => rfl
  | rendererThrew h1 h2 h3 h4 h5 h6 => exact absurd hlast.2 h5
  | completed h1 h2 h3 h4 h5 h6 h7 => exact absurd hlast.2 h5
  | caught h1 h2 h3 h4 h5 h6 h7 => rfl
  | escaped h1 h2 h3 h4 h5 h6 h7 => exact absurd hlast.2 h5

/-- If a call of the `try` block threw an exception derived from `std::exception`,
the run returned -1. -/
theorem result_of_std_exception (env : Env) (argv : List String) (e : Event)
    (he : e ∈ (runCLIMode env argv).trace)
    (hc : e.call ∈ tryBlock (argv.getD 1 "") (outputFile argv) (resolutionTarget argv))
    (ho : e.outcome = .threwStd) : (runCLIMode env argv).result = .returned (-1) := by
  obtain ⟨n1, n2, n3, n4⟩ := tryBlock_not_setup _ _ _ _ hc
  have hloc := trace_cases env argv e he
  have htry : e ∈ (tryRun env argv).events := by
    rcases hloc with h | h | h | h | h
    · subst h; exact absurd rfl (n4 _)
    · exact absurd (exec_call_mem _ _ _ _ _ e h) n1
    · exact absurd (exec_call_mem _ _ _ _ _ e h) n2
    · exact h
    · subst h; exact absurd rfl n3
  have hraised : (tryRun env argv).raised = some .threwStd := by
    rcases exec_outcome _ _ _ _ _ e htry with ⟨w, hw⟩ | h
    · rw [ho] at hw; cases hw
    · rw [ho] at h; exact h
  have hs := runCLIMode_shape env argv
  generalize runCLIMode env argv = run at hs he
  cases hs with
  | help h => simp at he
  | usage h1 h2 => simp at he
  | existsThrew h1 h2 h3 =>
    simp only [List.mem_singleton] at he
    subst he; exact absurd rfl (n4 _)
  | missing h1 h2 h3 => rfl
  | contextThrew h1 h2 h3 h4 =>
    exfalso
    rcases List.mem_cons.mp he with h | h
    · subst h; exact absurd rfl (n4 _)
    · exact absurd (exec_call_mem _ _ _ _ _ e h) n1
  | initFailed h1 h2 h3 h4 h5 => rfl
  | rendererThrew h1 h2 h3 h4 h5 h6 =>
    exfalso
    rcases List.mem_cons.mp he with h | h
    · subst h; exact absurd rfl (n4 _)
    · rcases List.mem_append.mp h with h | h
      · exact absurd (exec_call_mem _ _ _ _ _ e h) n1
      · exact absurd (exec_call_mem _ _ _ _ _ e h) n2
  | completed h1 h2 h3 h4 h5 h6 h7 => rw [h7] at hraised; cases hraised
  | caught h1 h2 h3 h4 h5 h6 h7 => rfl
  | escaped h1 h2 h3 h4 h5 h6 h7 => rw [h7] at hraised; cases hraised

/-- A run that made a call other than the existence check got past the help test,
the usage test and the existence check. -/
theorem past_existence_check (env : Env) (argv : List String)
    (hpast : ∃ e ∈ (runCLIMode env argv).trace, ∀ q, e.call ≠ .fsExists q) :
    helpRequested argv = false ∧ 2 ≤ argv.length ∧ env.fileExists (argv.getD 1 "") = true := by
  have hs := runCLIMode_shape env argv
  generalize runCLIMode env argv = run at hs hpast
  cases hs with
  | help h => obtain ⟨e, he, _⟩ := hpast; simp at he
  | usage h1 h2 => obtain ⟨e, he, _⟩ := hpast; simp at he
  | existsThrew h1 h2 h3 =>
    obtain ⟨e, he, hq⟩ := hpast
    simp only [List.mem_singleton] at he
    subst he; exact absurd rfl (hq _)
  | missing h1 h2 h3 =>
    obtain ⟨e, he, hq⟩ := hpast
    simp only [List.mem_singleton] at he
    subst he; exact absurd rfl (hq _)
  | contextThrew h1 h2 h3 h4 => exact ⟨h1, h2, h3⟩
  | initFailed h1 h2 h3 h4 h5 => exact ⟨h1, h2, h3⟩
  | rendererThrew h1 h2 h3 h4 h5 h6 => exact ⟨h1, h2, h3⟩
  | completed h1 h2 h3 h4 h5 h6 h7 => exact ⟨h1, h2, h3⟩
  | caught h1 h2 h3 h4 h5 h6 h7 => exact ⟨h1, h2, h3⟩
  | escaped h1 h2 h3 h4 h5 h6 h7 => exact ⟨h1, h2, h3⟩

/-- A run past the help test and the existence check in which no call threw and
`init()` did not return -1 went through the whole script and returned 0. -/
theorem run_without_failure (env : Env) (argv : List String)
    (hhelp : helpRequested argv = false) (hargc : 2 ≤ argv.length)
    (hexists : env.fileExists (argv.getD 1 "") = true)
    (hret : ∀ e ∈ (runCLIMode env argv).trace, ∃ w, e.outcome = .returned w)
    (hinit : ∀ e ∈ (runCLIMode env argv).trace, e.call = .init → e.outcome ≠ .returned (-1)) :
    (runCLIMode env argv).trace.map Event.call = script argv ∧
      (runCLIMode env argv).result = .returned 0 := by
  have hs := runCLIMode_shape env argv
  generalize runCLIMode env argv = run at hs hret hinit
  have hthrew : ∀ (cs : List Call) (k : Nat) (st : RendererState) (v : Int),
      (∀ e ∈ (exec env k st v cs).events, ∃ w, e.outcome = .returned w) →
      (exec env k st v cs).raised = none := by
    intro cs k st v hall
    by_contra hne
    obtain ⟨x, hx, hxo⟩ := exec_raised_event env cs k st v hne
    obtain ⟨w, hw⟩ := hall x hx
    exact hxo w hw
  cases hs with
  | help h => rw [hhelp] at h; cases h
  | usage h1 h2 => omega
  | existsThrew h1 h2 h3 =>
    obtain ⟨w, hw⟩ := hret _ (List.mem_singleton.mpr rfl)
    exact absurd hw (existsEvent_threw env argv h3 w)
  | missing h1 h2 h3 => rw [hexists] at h3; cases h3
  | contextThrew h1 h2 h3 h4 =>
    exact absurd (hthrew _ _ _ _ (fun e he => hret e (List.mem_cons_of_mem _ he))) h4
  | initFailed h1 h2 h3 h4 h5 =>
    exfalso
    have hcalls := exec_raised_none _ _ _ _ _ h4
    have hmem : Call.init ∈ (contextRun env).events.map Event.call := by
      rw [show (contextRun env).events.map Event.call = contextCalls from hcalls]
      simp [contextCalls]
    obtain ⟨e, he, hc⟩ := List.mem_map.mp hmem
    rcases contextRun_init env e he hc with ⟨_, h⟩ | ⟨h, _⟩
    · rw [h5] at h
      exact hinit e (List.mem_cons_of_mem _ he) hc h
    · rw [h4] at h; cases h
  | rendererThrew h1 h2 h3 h4 h5 h6 =>
    exact absurd (hthrew _ _ _ _ (fun e he =>
      hret e (List.mem_cons_of_mem _ (List.mem_append_right _ he)))) h6
  | completed h1 h2 h3 h4 h5 h6 h7 =>
    refine ⟨?_, rfl⟩
    have c1 : (contextRun env).events.map Event.call = contextCalls :=
      exec_raised_none _ _ _ _ _ h4
    have c2 : (rendererRun env).events.map Event.call = rendererCalls :=
      exec_raised_none _ _ _ _ _ h6
    have c3 : (tryRun env argv).events.map Event.call =
        tryBlock (argv.getD 1 "") (outputFile argv) (resolutionTarget argv) :=
      exec_raised_none _ _ _ _ _ h7
    simp only [List.map_cons, List.map_append, List.cons_append, List.map_nil]
    rw [c1, c2, c3]
    rfl
  | caught h1 h2 h3 h4 h5 h6 h7 =>
    exfalso
    obtain ⟨_, x, hx, hxo⟩ := exec_raised_some _ _ _ _ _ _ h7
    obtain ⟨w, hw⟩ := hret x (by
      simp only [List.cons_append, List.mem_cons, List.mem_append]
      tauto)
    rw [hxo] at hw; cases hw
  | escaped h1 h2 h3 h4 h5 h6 h7 =>
    exfalso
    obtain ⟨_, x, hx, hxo⟩ := exec_raised_some _ _ _ _ _ _ h7
    obtain ⟨w, hw⟩ := hret x (by
      simp only [List.mem_cons, List.mem_append]
      tauto)
    rw [hxo] at hw; cases hw

/-- C6, as the code has it: the return value of `runCLIMode` is -1 whenever
`glewGlfwHandler.init()` returns -1 and whenever a call of the `try` block (load,
conversion, export) throws an exception derived from `std::exception`; it is 0
when `init()` succeeds and no call of the run throws. -/
theorem C6_return_value (env : Env) (argv : List String) :
    ((∃ e ∈ (runCLIMode env argv).trace, e.call = .init ∧ e.outcome = .returned (-1)) →
      (runCLIMode env argv).result = .returned (-1)) ∧
    ((∃ e ∈ (runCLIMode env argv).trace,
        e.call ∈ tryBlock (argv.getD 1 "") (outputFile argv) (resolutionTarget argv) ∧
          e.outcome = .threwStd) →
      (runCLIMode env argv).result = .returned (-1)) ∧
    ((∃ e ∈ (runCLIMode env argv).trace,
        e.call = .init ∧ ∃ w, w ≠ -1 ∧ e.outcome = .returned w) →
      (∀ e ∈ (runCLIMode env argv).trace, ∃ w, e.outcome = .returned w) →
      (runCLIMode env argv).result = .returned 0) := by
  refine ⟨?_, ?_, ?_⟩
  · rintro ⟨e, he, hc, ho⟩
    exact result_of_init_failure env argv e he hc ho
  · rintro ⟨e, he, hc, ho⟩
    exact result_of_std_exception env argv e he hc ho
  · rintro ⟨e, he, hc, w, hw, ho⟩ hret
    obtain ⟨p1, p2, p3⟩ := past_existence_check env argv
      ⟨e, he, fun q hq => by rw [hc] at hq; cases hq⟩
    refine (run_without_failure env argv p1 p2 p3 hret ?_).2
    · intro x hx hxc hxo
      have hxin := init_event_in_context env argv x hx hxc
      have hein := init_event_in_context env argv e he hc
      rcases contextRun_init env x hxin hxc with ⟨_, h1⟩ | ⟨_, h1⟩
      · rcases contextRun_init env e hein hc with ⟨_, h2⟩ | ⟨_, h2⟩
        · rw [hxo] at h1
          rw [ho, ← h1] at h2
          simp only [Outcome.returned.injEq] at h2
          exact hw h2
        · exact h2 w ho
      · exact h1 (-1) hxo

/-- C6 fails as stated for an exception that is not derived from
`std::exception`: the input exists, `loadModel` throws such an exception, and
`runCLIMode` returns no value at all, the exception leaves it. -/
theorem C6_counterexample :
    foreignThrowEnv.fileExists "in.glb" = true ∧
    (∃ e ∈ (runCLIMode foreignThrowEnv ["mesh2splat", "in.glb"]).trace,
      e.call = .loadModel "in.glb" "" ∧ e.outcome = .threwOther) ∧
    (runCLIMode foreignThrowEnv ["mesh2splat", "in.glb"]).result = .uncaught := by
  refine ⟨rfl, ?_, ?_⟩ <;> decide

/-- C6 on three runs: `init()` returning -1, `renderFrame` throwing a
`std::exception`, and a run without failure. -/
theorem C6_return_value_examples :
    (runCLIMode noContextEnv ["mesh2splat", "in.glb"]).result = .returned (-1) ∧
    (runCLIMode frameThrowEnv ["mesh2splat", "in.glb"]).result = .returned (-1) ∧
    (runCLIMode quietEnv ["mesh2splat", "in.glb"]).result = .returned 0 := by
  refine ⟨?_, ?_, ?_⟩ <;> decide

/-! ## The claim on an unreadable resolution argument -/

/-- C2, as the code has it: for every resolution argument from which `std::stoi`
reads no number between 64 and 2048 (it throws on `"abc"`), the resolution is the
default 512, and unless `argv[1]` is a help flag the run goes on: the existence
check is made, and when the input exists, `init()` does not fail and no call
throws, the run loads, converts at 512 and exports, and returns 0. -/
theorem C2_unreadable_resolution (env : Env) (prog input output arg : String)
    (rest : List String) (harg : ∀ n, stoi arg = .ok n → n < 64 ∨ 2048 < n) :
    resolutionTarget (prog :: input :: output :: arg :: rest) = 512 ∧
    (helpRequested (prog :: input :: output :: arg :: rest) = false →
      (∃ e ∈ (runCLIMode env (prog :: input :: output :: arg :: rest)).trace,
        e.call = .fsExists input) ∧
      (env.fileExists input = true →
        (∀ e ∈ (runCLIMode env (prog :: input :: output :: arg :: rest)).trace,
          ∃ w, e.outcome = .returned w) →
        (∀ e ∈ (runCLIMode env (prog :: input :: output :: arg :: rest)).trace,
          e.call = .init → e.outcome ≠ .returned (-1)) →
        (runCLIMode env (prog :: input :: output :: arg :: rest)).trace.map Event.call =
          .fsExists input :: (contextCalls ++ rendererCalls ++
            tryBlock input output 512 ++ [.glfwTerminate]) ∧
        (runCLIMode env (prog :: input :: output :: arg :: rest)).result = .returned 0)) := by
  have hres := resolutionTarget_fallback prog input output arg rest harg
  refine ⟨hres, ?_⟩
  intro hhelp
  have hargc : 2 ≤ (prog :: input :: output :: arg :: rest).length := by simp
  constructor
  · have hs := runCLIMode_shape env (prog :: input :: output :: arg :: rest)
    generalize runCLIMode env (prog :: input :: output :: arg :: rest) = run at hs
    have hcall : (existsEvent env (prog :: input :: output :: arg :: rest)).call =
        .fsExists input := rfl
    cases hs with
    | help h => rw [hhelp] at h; cases h
    | usage h1 h2 => omega
    | existsThrew h1 h2 h3 => exact ⟨_, List.mem_singleton.mpr rfl, hcall⟩
    | missing h1 h2 h3 => exact ⟨_, List.mem_singleton.mpr rfl, hcall⟩
    | contextThrew h1 h2 h3 h4 => exact ⟨_, List.mem_cons_self _ _, hcall⟩
    | initFailed h1 h2 h3 h4 h5 => exact ⟨_, List.mem_cons_self _ _, hcall⟩
    | rendererThrew h1 h2 h3 h4 h5 h6 => exact ⟨_, List.mem_cons_self _ _, hcall⟩
    | completed h1 h2 h3 h4 h5 h6 h7 => exact ⟨_, List.mem_cons_self _ _, hcall⟩
    | caught h1 h2 h3 h4 h5 h6 h7 => exact ⟨_, List.mem_cons_self _ _, hcall⟩
    | escaped h1 h2 h3 h4 h5 h6 h7 => exact ⟨_, List.mem_cons_self _ _, hcall⟩
  · intro hexists hret hinit
    have h := run_without_failure env _ hhelp hargc hexists hret hinit
    have hout : outputFile (prog :: input :: output :: arg :: rest) = output :=
      outputFile_given _ _ _ _
    have hscript : script (prog :: input :: output :: arg :: rest) =
        .fsExists input :: (contextCalls ++ rendererCalls ++
          tryBlock input output 512 ++ [.glfwTerminate]) := by
      unfold script
      rw [hres, hout]
      rfl
    rw [hscript] at h
    exact h

/-- C2 on the argument `"abc"` in the environment where everything succeeds. -/
theorem C2_unreadable_resolution_witness :
    (∀ n, stoi "abc" = .ok n → n < 64 ∨ 2048 < n) ∧
    (resolutionTarget ("mesh2splat" :: "in.glb" :: "out.ply" :: "abc" :: []) = 512 ∧
    (helpRequested ("mesh2splat" :: "in.glb" :: "out.ply" :: "abc" :: []) = false →
      (∃ e ∈ (runCLIMode quietEnv ("mesh2splat" :: "in.glb" :: "out.ply" :: "abc" :: [])).trace,
        e.call = .fsExists "in.glb") ∧
      (quietEnv.fileExists "in.glb" = true →
        (∀ e ∈ (runCLIMode quietEnv ("mesh2splat" :: "in.glb" :: "out.ply" :: "abc" :: [])).trace,
          ∃ w, e.outcome = .returned w) →
        (∀ e ∈ (runCLIMode quietEnv ("mesh2splat" :: "in.glb" :: "out.ply" :: "abc" :: [])).trace,
          e.call = .init → e.outcome ≠ .returned (-1)) →
        (runCLIMode quietEnv
            ("mesh2splat" :: "in.glb" :: "out.ply" :: "abc" :: [])).trace.map Event.call =
          .fsExists "in.glb" :: (contextCalls ++ rendererCalls ++
            tryBlock "in.glb" "out.ply" 512 ++ [.glfwTerminate]) ∧
        (runCLIMode quietEnv
            ("mesh2splat" :: "in.glb" :: "out.ply" :: "abc" :: [])).result = .returned 0))) :=
  ⟨fun _ h => (by cases h),
    C2_unreadable_resolution quietEnv "mesh2splat" "in.glb" "out.ply" "abc" []
      (fun _ h => (by cases h))⟩

/-- C2 fails as stated: `"100abc"` is not a well-formed integer literal, yet
`std::stoi` reads 100 from it and the run converts at 100, not at 512; and with a
help flag as `argv[1]` the run makes no call at all, the existence check included,
though the file exists. -/
theorem C2_counterexample :
    stoi "100abc" = .ok 100 ∧
    resolutionTarget ["mesh2splat", "in.glb", "out.ply", "100abc"] = 100 ∧
    Call.setViewportResolutionForConversion 100 ∈
      (runCLIMode quietEnv ["mesh2splat", "in.glb", "out.ply", "100abc"]).trace.map Event.call ∧
    quietEnv.fileExists "help" = true ∧
    (runCLIMode quietEnv ["mesh2splat", "help", "out.ply", "abc"]).trace = [] := by
  refine ⟨rfl, ?_, ?_, rfl, ?_⟩ <;> decide

/-! ## The claim on the single cycle -/

/-- A sequence all of whose events returned was not stopped by an exception. -/
theorem exec_all_returned (env : Env) (cs : List Call) (k : Nat) (st : RendererState) (v : Int)
    (hall : ∀ e ∈ (exec env k st v cs).events, ∃ w, e.outcome = .returned w) :
    (exec env k st v cs).raised = none := by
  by_contra hne
  obtain ⟨x, hx, hxo⟩ := exec_raised_event env cs k st v hne
  obtain ⟨w, hw⟩ := hall x hx
  exact hxo w hw

/-- The set-up sequences contain no step of the cycle. -/
theorem cycle_filter_setup (env : Env) :
    ((contextRun env).events.map Event.call).filter isCycleStep = [] ∧
    ((rendererRun env).events.map Event.call).filter isCycleStep = [] := by
  have h1 : ((contextRun env).events.map Event.call).filter isCycleStep <+:
      contextCalls.filter isCycleStep := (exec_calls_initial _ _ _ _ _).filter _
  have h2 : ((rendererRun env).events.map Event.call).filter isCycleStep <+:
      rendererCalls.filter isCycleStep := (exec_calls_initial _ _ _ _ _).filter _
  have e1 : contextCalls.filter isCycleStep = [] := rfl
  have e2 : rendererCalls.filter isCycleStep = [] := rfl
  rw [e1] at h1
  rw [e2] at h2
  exact ⟨List.prefix_nil.mp h1, List.prefix_nil.mp h2⟩

/-- The steps of the cycle made by the `try` block are an initial part of load,
frame, export. -/
theorem cycle_filter_try (env : Env) (argv : List String) :
    ((tryRun env argv).events.map Event.call).filter isCycleStep <+:
      [.loadModel (argv.getD 1 "") (parentFolder (argv.getD 1 "")), .renderFrame,
        .exportPlySynchronous (outputFile argv) 0] := by
  have h : ((tryRun env argv).events.map Event.call).filter isCycleStep <+:
      (tryBlock (argv.getD 1 "") (outputFile argv) (resolutionTarget argv)).filter
        isCycleStep := (exec_calls_initial _ _ _ _ _).filter _
  exact h

/-- C9: in every run the calls of `loadModel`, `renderFrame` and
`exportPlySynchronous` form an initial part of the sequence load, frame, export
(with the chosen output path and format 0), so none is repeated or made out of
order; and a run that gets to load the model and in which no call throws makes
exactly these three calls, once each and in this order, within the full script,
and then returns 0. -/
theorem C9_one_cycle (env : Env) (argv : List String) :
    ((runCLIMode env argv).trace.map Event.call).filter isCycleStep <+:
      [.loadModel (argv.getD 1 "") (parentFolder (argv.getD 1 "")), .renderFrame,
        .exportPlySynchronous (outputFile argv) 0] ∧
    ((∃ e ∈ (runCLIMode env argv).trace,
        e.call = .loadModel (argv.getD 1 "") (parentFolder (argv.getD 1 ""))) →
      (∀ e ∈ (runCLIMode env argv).trace, ∃ w, e.outcome = .returned w) →
      ((runCLIMode env argv).trace.map Event.call).filter isCycleStep =
        [.loadModel (argv.getD 1 "") (parentFolder (argv.getD 1 "")), .renderFrame,
          .exportPlySynchronous (outputFile argv) 0] ∧
      (runCLIMode env argv).trace.map Event.call = script argv ∧
      (runCLIMode env argv).result = .returned 0) := by
  obtain ⟨f1, f2⟩ := cycle_filter_setup env
  have f3 := cycle_filter_try env argv
  have fe : isCycleStep (existsEvent env argv).call = false := rfl
  have ft : ∀ st, isCycleStep (terminateEvent st).call = false := fun _ => rfl
  constructor
  · have hs := runCLIMode_shape env argv
    generalize runCLIMode env argv = run at hs
    cases hs <;>
      simp only [List.map_cons, List.map_append, List.map_nil, List.filter_cons,
        List.filter_append, List.filter_nil, List.cons_append, fe, ft, f1, f2,
        Bool.false_eq_true, if_false, List.nil_append, List.append_nil] <;>
      first
        | exact f3
        | exact List.nil_prefix
  · intro hload hret
    obtain ⟨e, he, hc⟩ := hload
    obtain ⟨p1, p2, p3⟩ := past_existence_check env argv
      ⟨e, he, fun q hq => by rw [hc] at hq; cases hq⟩
    have hinit : ∀ x ∈ (runCLIMode env argv).trace, x.call = .init →
        x.outcome ≠ .returned (-1) := by
      intro x hx hxc hxo
      have hr := result_of_init_failure env argv x hx hxc hxo
      have hs := runCLIMode_shape env argv
      generalize runCLIMode env argv = run at hs he hr hret
      have hctx : ∀ y ∈ (contextRun env).events, y.call ∈ contextCalls :=
        fun y hy => exec_call_mem _ _ _ _ _ y hy
      cases hs with
      | help h => simp at he
      | usage h1 h2 => simp at he
      | existsThrew h1 h2 h3 => cases hr
      | missing h1 h2 h3 => rw [p3] at h3; cases h3
      | contextThrew h1 h2 h3 h4 => cases hr
      | initFailed h1 h2 h3 h4 h5 =>
        rcases List.mem_cons.mp he with h | h
        · subst h; cases hc
        · have := hctx e h
          rw [hc] at this
          simp [contextCalls] at this
      | rendererThrew h1 h2 h3 h4 h5 h6 => cases hr
      | completed h1 h2 h3 h4 h5 h6 h7 => cases hr
      | caught h1 h2 h3 h4 h5 h6 h7 =>
        obtain ⟨_, x, hx, hxo⟩ := exec_raised_some _ _ _ _ _ _ h7
        obtain ⟨w, hw⟩ := hret x (by
          simp only [List.cons_append, List.mem_cons, List.mem_append]
          tauto)
        rw [hxo] at hw; cases hw
      | escaped h1 h2 h3 h4 h5 h6 h7 => cases hr
    obtain ⟨h1, h2⟩ := run_without_failure env argv p1 p2 p3 hret hinit
    refine ⟨?_, h1, h2⟩
    rw [h1]
    rfl

/-- C9 on two runs: one without failure makes the three calls in order, and one in
which `renderFrame` throws stops after it, without an export. -/
theorem C9_one_cycle_examples :
    ((runCLIMode quietEnv ["mesh2splat", "a/in.glb"]).trace.map Event.call).filter isCycleStep =
      [.loadModel "a/in.glb" "a", .renderFrame, .exportPlySynchronous "a/in.ply" 0] ∧
    (runCLIMode quietEnv ["mesh2splat", "a/in.glb"]).result = .returned 0 ∧
    ((runCLIMode frameThrowEnv ["mesh2splat", "a/in.glb"]).trace.map Event.call).filter
      isCycleStep = [.loadModel "a/in.glb" "a", .renderFrame] := by
  refine ⟨?_, ?_, ?_⟩ <;> decide

/-! ## The claims on the pass-enablement set and the viewport -/

/-- An event of a run whose call belongs to the `try` block is an event of the
executed `try` block. -/
theorem try_event_of_call (env : Env) (argv : List String) (e : Event)
    (he : e ∈ (runCLIMode env argv).trace)
    (hc : e.call ∈ tryBlock (argv.getD 1 "") (outputFile argv) (resolutionTarget argv)) :
    e ∈ (tryRun env argv).events := by
  obtain ⟨n1, n2, n3, n4⟩ := tryBlock_not_setup _ _ _ _ hc
  rcases trace_cases env argv e he with h | h | h | h | h
  · subst h; exact absurd rfl (n4 _)
  · exact absurd (exec_call_mem _ _ _ _ _ e h) n1
  · exact absurd (exec_call_mem _ _ _ _ _ e h) n2
  · exact h
  · subst h; exact absurd rfl n3

/-- The renderer state the conversion frame finds: `conversion` is enabled, the
display-oriented passes are not, and the viewport has the conversion resolution. -/
theorem state_at_frame (env : Env) (argv : List String) (e : Event)
    (he : e ∈ (tryRun env argv).events) (hc : e.call = .renderFrame) :
    "conversion" ∈ e.before.enabled ∧ "gaussianPrepass" ∉ e.before.enabled ∧
      "radixSort" ∉ e.before.enabled ∧ "gaussianSplatting" ∉ e.before.enabled ∧
      e.before.viewport = resolutionTarget argv := by
  obtain ⟨i, hi, hget, hbef⟩ := exec_before _ _ _ _ _ e he
  rw [hc] at hget
  simp only [tryBlock, List.length_cons, List.length_nil] at hi
  have h13 : i = 13 := by
    interval_cases i <;> first | rfl | (simp [tryBlock] at hget)
  subst h13
  rw [hbef]
  simp [tryBlock, step, List.mem_filter, List.mem_insert_iff, displayPasses]

/-- The renderer state the export finds: the three display passes are enabled and
the viewport has the display resolution. -/
theorem state_at_export (env : Env) (argv : List String) (e : Event) (q : String) (f : Nat)
    (he : e ∈ (tryRun env argv).events) (hc : e.call = .exportPlySynchronous q f) :
    "gaussianPrepass" ∈ e.before.enabled ∧ "radixSort" ∈ e.before.enabled ∧
      "gaussianSplatting" ∈ e.before.enabled ∧ e.before.viewport = e.before.display := by
  obtain ⟨i, hi, hget, hbef⟩ := exec_before _ _ _ _ _ e he
  rw [hc] at hget
  simp only [tryBlock, List.length_cons, List.length_nil] at hi
  have h19 : i = 19 := by
    interval_cases i <;> first | rfl | (simp [tryBlock] at hget)
  subst h19
  rw [hbef]
  simp [tryBlock, step, List.mem_insert_iff]

/-- C7 on two more runs: a renderer that starts with the display-oriented passes
enabled, and the renderer states the calls of lines 167-179 find in the run
where everything succeeds. -/
theorem C7_state_at_conversion_frame_examples :
    (⟨.renderFrame, ⟨["conversion"], 512, 720⟩, .returned 0⟩ : Event) ∈
      (runCLIMode displayOnEnv ["mesh2splat", "in.glb"]).trace ∧
    (⟨.enableRenderPass "conversion",
        ⟨["gaussianSplatting", "radixSort", "gaussianPrepass", "conversion"], 512, 1024⟩,
        .returned 0⟩ : Event) ∈ (runCLIMode quietEnv ["mesh2splat", "in.glb"]).trace ∧
    (⟨.setViewportResolutionForConversion 512,
        ⟨["gaussianSplatting", "radixSort", "gaussianPrepass", "conversion"], 512, 1024⟩,
        .returned 0⟩ : Event) ∈ (runCLIMode quietEnv ["mesh2splat", "in.glb"]).trace := by
  refine ⟨?_, ?_, ?_⟩ <;> decide

/-- C8: when `exportPlySynchronous` is invoked, after the conversion frame, the
passes `gaussianPrepass`, `radixSort` and `gaussianSplatting` are in the
pass-enablement set and the viewport resolution is the display resolution of the
renderer; at the frame it was the conversion resolution. -/
theorem C8_state_before_export (env : Env) (argv : List String) :
    (∀ e ∈ (runCLIMode env argv).trace, ∀ q f, e.call = .exportPlySynchronous q f →
      "gaussianPrepass" ∈ e.before.enabled ∧ "radixSort" ∈ e.before.enabled ∧
        "gaussianSplatting" ∈ e.before.enabled ∧ e.before.viewport = e.before.display) ∧
    (∀ e ∈ (runCLIMode env argv).trace, e.call = .renderFrame →
      e.before.viewport = resolutionTarget argv) := by
  constructor
  · intro e he q f hc
    have hqf := (trace_arguments env argv e he).2.2 q f hc
    have hmem : e.call ∈
        tryBlock (argv.getD 1 "") (outputFile argv) (resolutionTarget argv) := by
      rw [hc, hqf.1, hqf.2]; simp [tryBlock]
    exact state_at_export env argv e q f (try_event_of_call env argv e he hmem) hc
  · intro e he hc
    have hmem : e.call ∈
        tryBlock (argv.getD 1 "") (outputFile argv) (resolutionTarget argv) := by
      rw [hc]; simp [tryBlock]
    exact (state_at_frame env argv e (try_event_of_call env argv e he hmem) hc).2.2.2.2

/-- C8 on two runs with resolution argument 256 in which every call returns: the
export finds the three passes enabled and the viewport back at 1024, also when
`renderFrame` has disabled every pass. -/
theorem C8_state_before_export_examples :
    (⟨.exportPlySynchronous "out.ply" 0,
        ⟨["gaussianSplatting", "radixSort", "gaussianPrepass", "conversion"], 1024, 1024⟩,
        .returned 0⟩ : Event) ∈
      (runCLIMode quietEnv ["mesh2splat", "in.glb", "out.ply", "256"]).trace ∧
    (⟨.exportPlySynchronous "out.ply" 0,
        ⟨["gaussianSplatting", "radixSort", "gaussianPrepass"], 1024, 1024⟩,
        .returned 0⟩ : Event) ∈
      (runCLIMode frameDisablesEnv ["mesh2splat", "in.glb", "out.ply", "256"]).trace := by
  constructor <;> decide

end Mesh2Splat
